import Mathlib

/-!
Verification of the statistics-extraction and number-selection pipeline of
`sequence_analyzer.py` (Oz Lotto statistics analyzer).

The Python source is shallowly embedded: Python dictionaries produced by the
parsing layer become the `Rec` structure (a key that may be absent maps to
`none`; a value that may be an `int` or a leftover string becomes `PyVal`);
Python's `sorted` (a stable sort) is modelled by `List.insertionSort` with the
corresponding comparison, which agrees with every stable sort; `random.choices`
and `random.sample` outcomes are supplied by an explicit oracle (`Rng`), and
`random.sample`'s `ValueError` on `k > len(pool)` is modelled by `Option`;
uncaught Python exceptions are modelled by `Except Unit`.  Numeric ball/count
data uses `ℤ`, float weights use `ℚ` (all weight constants are exact decimals
and only sign/zero tests of weights influence control flow).
-/

set_option maxRecDepth 4000

/-- A Python value that is either an `int` or a leftover unparsed string. -/
inductive PyVal where
  | int : ℤ → PyVal
  | str : String → PyVal
deriving DecidableEq, Repr

/-- One record (Python dict) produced by the parsing layer.  A missing key is
`none`.  `raw_data` cell texts are dropped: no selector reads them. -/
structure Rec where
  ball : Option PyVal := none
  drawn : Option PyVal := none
  last_drawn_info : Option String := none
  balls : List PyVal := []
deriving DecidableEq, Repr

/-- The categories of extracted statistics consumed by the selection pipeline
(`stats.get('numerical')`, `stats.get('cold')`, `stats.get('least_often')`).
The remaining categories (hot, pairs, triplets, ...) are never read by the
embedded functions. -/
structure Stats where
  numerical : List Rec := []
  cold : List Rec := []
  least_often : List Rec := []

/-- `isinstance(v, int)` for a possibly-missing dict value. -/
def isIntV : Option PyVal → Bool
  | some (PyVal.int _) => true
  | _ => false

/-- The integer held by a dict value; only evaluated on values that passed
`isinstance(v, int)`. -/
def intV : Option PyVal → ℤ
  | some (PyVal.int n) => n
  | _ => 0

/-- Characters matched by Python's `\s` (ASCII range; the pages parsed here are
ASCII). -/
def isPySpace (c : Char) : Bool :=
  c = ' ' || c = '\t' || c = '\n' || c = '\r' || c = Char.ofNat 11 || c = Char.ofNat 12

/-- Numeric value of a nonempty run of decimal digits. -/
def digitsVal (cs : List Char) : ℕ :=
  cs.foldl (fun a c => a * 10 + (c.toNat - 48)) 0

/-- All-digit check plus value, for `int(s)` bodies. -/
def pyDigits (cs : List Char) : Option ℕ :=
  if cs.isEmpty then none
  else if cs.all Char.isDigit then some (digitsVal cs) else none

/-- Python `int(s)`: strip surrounding whitespace, optional sign, decimal
digits; `none` models the `ValueError` raised otherwise.  (Underscore digit
separators and non-ASCII digits are not modelled.) -/
def pyInt (s : String) : Option ℤ :=
  let cs := ((s.data.dropWhile isPySpace).reverse.dropWhile isPySpace).reverse
  match cs with
  | '-' :: rest => (pyDigits rest).map (fun n => -(n : ℤ))
  | '+' :: rest => (pyDigits rest).map (fun n => (n : ℤ))
  | rest => (pyDigits rest).map (fun n => (n : ℤ))

/-- `s.replace(',', '')`. -/
def stripCommas (s : String) : String :=
  ⟨s.data.filter (fun c => c ≠ ',')⟩

/-- Attempt to match the regex `(\d+)\s+days? ago` at the start of `cs`,
returning the captured integer: a maximal nonempty digit run, at least one
whitespace character, `day`, an optional `s`, then literally ` ago`. -/
def matchDaysAt (cs : List Char) : Option ℕ :=
  let ds := cs.takeWhile Char.isDigit
  if ds.isEmpty then none
  else
    let r1 := cs.drop ds.length
    let sp := r1.takeWhile isPySpace
    if sp.isEmpty then none
    else
      match r1.drop sp.length with
      | 'd' :: 'a' :: 'y' :: 's' :: ' ' :: 'a' :: 'g' :: 'o' :: _ => some (digitsVal ds)
      | 'd' :: 'a' :: 'y' :: ' ' :: 'a' :: 'g' :: 'o' :: _ => some (digitsVal ds)
      | _ => none

/-- `re.search(r'(\d+)\s+days? ago', s)`: leftmost match wins. -/
def searchDays : List Char → Option ℕ
  | [] => none
  | c :: rest =>
    match matchDaysAt (c :: rest) with
    | some n => some n
    | none => searchDays rest

/-- Lexicographic `<=` on pairs, i.e. Python tuple comparison of 2-tuples. -/
def lexLe (p q : ℤ × ℤ) : Prop :=
  p.1 < q.1 ∨ (p.1 = q.1 ∧ p.2 ≤ q.2)

instance : DecidableRel lexLe := fun p q => by
  unfold lexLe; infer_instance

/-- Comparison used by Python's `sorted(..., key=key, reverse=rev)` on int
pairs: with `reverse=True` the whole key comparison is reversed. -/
def keyRel (key : α → ℤ × ℤ) (rev : Bool) (a b : α) : Prop :=
  if rev then lexLe (key b) (key a) else lexLe (key a) (key b)

instance (key : α → ℤ × ℤ) (rev : Bool) : DecidableRel (keyRel key rev) := fun a b => by
  unfold keyRel; split <;> infer_instance

instance (key : α → ℤ × ℤ) (rev : Bool) : IsTotal α (keyRel key rev) :=
  ⟨by intro a b; unfold keyRel lexLe; cases rev <;> simp <;> omega⟩

instance (key : α → ℤ × ℤ) (rev : Bool) : IsTrans α (keyRel key rev) :=
  ⟨by intro a b c h1 h2; unfold keyRel lexLe at *; cases rev <;> simp_all <;> omega⟩

/-- Python `sorted(l, key=key, reverse=rev)` for an int-pair key: a stable sort
under `keyRel`; stable sorts with a fixed total preorder produce a unique
output, so `insertionSort` reproduces CPython's result exactly. -/
def pySortKey (key : α → ℤ × ℤ) (rev : Bool) (l : List α) : List α :=
  List.insertionSort (keyRel key rev) l

/-- Python `sorted(l)` for a list of ints (ascending). -/
def sortAsc (l : List ℤ) : List ℤ :=
  List.insertionSort (· ≤ ·) l

/-- `get_numbers_by_frequency(numerical_data, count, highest)`: filter to
records whose `drawn` and `ball` are ints, sort by `(drawn, ball)` with
`reverse=highest`, return the first `count` ball numbers. -/
def get_numbers_by_frequency (numerical_data : List Rec) (count : ℕ)
    (highest : Bool := true) : List ℤ :=
  let valid_data := numerical_data.filter (fun r => isIntV r.drawn && isIntV r.ball)
  if valid_data.isEmpty then []
  else
    ((pySortKey (fun r => (intV r.drawn, intV r.ball)) highest valid_data).take count).map
      (fun r => intV r.ball)

/-- The inner `extract_days` of `get_numbers_by_overdue`: 9999 when no
`(\d+)\s+days? ago` match (and for its unreachable non-string branch). -/
def extract_days (info : Option String) : ℤ :=
  match info with
  | none => 9999
  | some s =>
    match searchDays s.data with
    | some n => (n : ℤ)
    | none => 9999

/-- The per-record `(ball, days_ago)` extraction of `get_numbers_by_overdue`:
records without an int ball are skipped; a truthy `last_drawn_info` (present,
nonempty) is parsed with `extract_days`; a falsy one (missing key, `None`, or
the empty string) gives `days_ago = 0`. -/
def overdueValid (cold_data : List Rec) : List (ℤ × ℤ) :=
  cold_data.filterMap fun item =>
    match item.ball with
    | some (PyVal.int b) =>
      match item.last_drawn_info with
      | some s => if s ≠ "" then some (b, extract_days (some s)) else some (b, 0)
      | none => some (b, 0)
    | _ => none

/-- The unique-balls collection loop of `get_numbers_by_overdue`: append unseen
balls, stop once `count` have been collected.  (When `count = 0` the stop test
never fires and all unique balls are returned, as in the source.) -/
def collectUnique (count : ℕ) : List ℤ → List ℤ → List ℤ
  | [], acc => acc
  | b :: rest, acc =>
    if b ∈ acc then collectUnique count rest acc
    else
      let acc2 := acc ++ [b]
      if acc2.length = count then acc2 else collectUnique count rest acc2

/-- `get_numbers_by_overdue(cold_data, count)`: sort `(ball, days_ago)` records
by `(days_ago, ball)` with `reverse=True`, then take the first `count` unique
balls. -/
def get_numbers_by_overdue (cold_data : List Rec) (count : ℕ) : List ℤ :=
  let valid_data := overdueValid cold_data
  if valid_data.isEmpty then []
  else
    let sorted_data := pySortKey (fun p => (p.2, p.1)) true valid_data
    collectUnique count (sorted_data.map (fun p => p.1)) []

/-- `get_numbers_by_least_frequent(least_frequent_data, count)`: as
`get_numbers_by_frequency` but ascending. -/
def get_numbers_by_least_frequent (least_frequent_data : List Rec) (count : ℕ) : List ℤ :=
  let valid_data := least_frequent_data.filter (fun r => isIntV r.drawn && isIntV r.ball)
  if valid_data.isEmpty then []
  else
    ((pySortKey (fun r => (intV r.drawn, intV r.ball)) false valid_data).take count).map
      (fun r => intV r.ball)

/-! ### Randomness model

`random.choices(population, weights, k)` outcomes are supplied as an index
stream (any index is allowed: the theorems quantify over the stream);
`random.sample(pool, k)` is an oracle function constrained by `SamplerSpec`,
wrapped in `pySample` which returns `none` exactly when Python raises
`ValueError` (`k > len(pool)`).  `list(set(..))`'s arbitrary enumeration order
is an oracle `setf` constrained by `SetFunSpec`. -/

/-- Oracle for all random outcomes of one run.  Distinct call sites draw from
distinct fields; every theorem quantifies over the whole oracle. -/
structure Rng where
  c1 : ℕ → ℕ
  c2 : ℕ → ℕ
  c3 : ℕ → ℕ
  sampler : List ℤ → ℕ → List ℤ
  setf : List ℤ → List ℤ

/-- Contract of `random.sample(pool, k)` for `k ≤ len(pool)`: `k` results, all
from the pool, distinct whenever the pool holds distinct values. -/
def SamplerSpec (s : List ℤ → ℕ → List ℤ) : Prop :=
  ∀ pool k, k ≤ pool.length →
    (s pool k).length = k ∧ (∀ x ∈ s pool k, x ∈ pool) ∧ (pool.Nodup → (s pool k).Nodup)

/-- Contract of `list(set(l))`: some enumeration of the distinct values of `l`. -/
def SetFunSpec (f : List ℤ → List ℤ) : Prop :=
  ∀ l : List ℤ, (f l).Perm l.dedup

/-- `random.sample(pool, k)`: `none` models the `ValueError` on `k > len(pool)`. -/
def pySample (s : List ℤ → ℕ → List ℤ) (pool : List ℤ) (k : ℕ) : Option (List ℤ) :=
  if k ≤ pool.length then some (s pool k) else none

/-- `random.choices(pop, weights, k)` outcomes: the stream picks any index into
the population. -/
def pyChoices (pop : List ℤ) (k : ℕ) (idx : ℕ → ℕ) : List ℤ :=
  (List.range k).map fun i => pop.getD (idx i % pop.length) 0

/-! ### Configuration constants -/

def NUMBERS_PER_ROW : ℕ := 7
def TOTAL_NUMBERS : ℕ := 47
def BASE_WEIGHT : ℚ := 1
def FREQUENCY_MULTIPLIER : ℚ := 1 / 2
def OVERDUE_BONUS : ℚ := 10
def NUM_OVERDUE_CONSIDERED : ℕ := 10

/-- `list(range(1, TOTAL_NUMBERS + 1))`. -/
def all_balls : List ℤ := (List.range TOTAL_NUMBERS).map (fun i => Int.ofNat i + 1)

/-! ### `select_unique_combination` -/

/-- First loop of `select_unique_combination`: walk `pool1` while fewer than
`count1` additions were made, appending unseen values; also returns the part of
`pool1` not yet walked (the final `idx1` position). -/
def sucPhase1 : ℕ → List ℤ → List ℤ → List ℤ × List ℤ
  | _, [], sel => (sel, [])
  | 0, pool, sel => (sel, pool)
  | c + 1, x :: rest, sel =>
    if x ∈ sel then sucPhase1 (c + 1) rest sel else sucPhase1 c rest (sel ++ [x])

/-- Second loop: walk `pool2` while `len(selected) < total`, fewer than
`count2` additions were made and the pool is not exhausted. -/
def sucPhase2 (total : ℕ) : ℕ → List ℤ → List ℤ → List ℤ × List ℤ
  | _, [], sel => (sel, [])
  | 0, pool, sel => (sel, pool)
  | c + 1, x :: rest, sel =>
    if sel.length ≥ total then (sel, x :: rest)
    else if x ∈ sel then sucPhase2 total (c + 1) rest sel
    else sucPhase2 total c rest (sel ++ [x])

/-- Third and fourth loops: keep drawing unseen values from the remainder of a
pool until `total` values are selected. -/
def sucPhase3 (total : ℕ) : List ℤ → List ℤ → List ℤ
  | [], sel => sel
  | x :: rest, sel =>
    if sel.length ≥ total then sel
    else sucPhase3 total rest (if x ∈ sel then sel else sel ++ [x])

/-- `select_unique_combination(list1, count1, list2, count2, total_needed)`:
take up to `count1` unique values from `list1`, up to `count2` more from
`list2`, then top up from the remainders of `list1` and `list2`; finally
`list(set(selected))[:total_needed]` (`setf` supplies the set order). -/
def select_unique_combination (setf : List ℤ → List ℤ) (list1 : List ℤ) (count1 : ℕ)
    (list2 : List ℤ) (count2 : ℕ) (total_needed : ℕ) : List ℤ :=
  let p1 := sucPhase1 count1 list1 []
  let p2 := sucPhase2 total_needed count2 list2 p1.1
  let s3 := sucPhase3 total_needed p1.2 p2.1
  let s4 := sucPhase3 total_needed p2.2 s3
  (setf s4).take total_needed

/-! ### Shared dictionary helpers -/

/-- Python dict assignment `d[k] = v` (original position kept on overwrite;
only lookup by key, the value multiset and emptiness are consumed). -/
def dictUpsert (d : List (ℤ × ℤ)) (k v : ℤ) : List (ℤ × ℤ) :=
  if d.any (fun p => p.1 = k) then d.map (fun p => if p.1 = k then (k, v) else p)
  else d ++ [(k, v)]

/-- `d.get(k, v0)`. -/
def dictGetD (d : List (ℤ × ℤ)) (k : ℤ) (v0 : ℤ) : ℤ :=
  match d.find? (fun p => decide (p.1 = k)) with
  | some p => p.2
  | none => v0

/-- `{item['ball']: item['drawn'] for item in numerical_data if
isinstance(item.get('ball'), int) and isinstance(item.get('drawn'), int)}`,
shared by both weighted generators. -/
def intFreqMap (numerical : List Rec) : List (ℤ × ℤ) :=
  numerical.foldl
    (fun d r =>
      if isIntV r.ball && isIntV r.drawn then dictUpsert d (intV r.ball) (intV r.drawn) else d)
    []

/-- Python `max(l, default=d)`. -/
def listMaxD (l : List ℤ) (d : ℤ) : ℤ :=
  match l with
  | [] => d
  | x :: rest => rest.foldl max x

/-! ### `generate_probabilistic_row` -/

/-- The unique-extraction loop of `generate_probabilistic_row`: add sampled
values to the selection set while fewer than `limit` are selected. -/
def takeUniqueUpTo (limit : ℕ) : List ℤ → List ℤ → List ℤ
  | [], acc => acc
  | x :: rest, acc =>
    if acc.length < limit then
      takeUniqueUpTo limit rest (if x ∈ acc then acc else acc ++ [x])
    else acc

/-- `selected_numbers.update(fill)`: set update, insertion order for new
elements. -/
def insertAllNew (acc : List ℤ) (xs : List ℤ) : List ℤ :=
  xs.foldl (fun a x => if x ∈ a then a else a ++ [x]) acc

/-- `generate_probabilistic_row(stats, num_needed)`: weight every ball by
frequency plus an overdue bonus (floored at 0.1), draw `3 * num_needed`
weighted picks, keep first-seen uniques, fill the shortfall by a uniform sample
of the unused balls; falls back to a uniform sample when there is no frequency
data or the total weight is non-positive.  `Except.error` models an uncaught
`ValueError` from a fallback `random.sample` call. -/
def gprWeights (stats : Stats) : List ℚ :=
  let freq_map := intFreqMap stats.numerical
  let top_overdue := get_numbers_by_overdue stats.cold NUM_OVERDUE_CONSIDERED
  all_balls.map fun ball =>
    max (1 / 10)
      (BASE_WEIGHT + (dictGetD freq_map ball 0 : ℚ) * FREQUENCY_MULTIPLIER +
        (if ball ∈ top_overdue then OVERDUE_BONUS else 0))

/-- The first-seen unique values of the weighted sample of row 1. -/
def gprSelected (n : ℕ) (rng : Rng) : List ℤ :=
  takeUniqueUpTo n (pyChoices all_balls (n * 3) rng.c1) []

def generate_probabilistic_row (stats : Stats) (num_needed : ℕ) (rng : Rng) :
    Except Unit (List ℤ) :=
  if stats.numerical.isEmpty then
    match pySample rng.sampler all_balls num_needed with
    | some s => Except.ok (sortAsc s)
    | none => Except.error ()
  else if (gprWeights stats).sum ≤ 0 then
    match pySample rng.sampler all_balls num_needed with
    | some s => Except.ok (sortAsc s)
    | none => Except.error ()
  else
    -- random.choices only raises for a non-positive total weight, excluded
    -- by the branch above, so its try/except fallback is not reachable.
    let selected := gprSelected num_needed rng
    if selected.length < num_needed then
      let remaining_population := all_balls.filter (fun b => b ∉ selected)
      match pySample rng.sampler remaining_population (num_needed - selected.length) with
      | some fill => Except.ok (sortAsc (insertAllNew selected fill))
      | none => Except.ok (sortAsc selected)  -- incomplete-row error branch
    else Except.ok (sortAsc selected)

/-! ### `generate_overdue_frequency_row` -/

/-- The inner `extract_days` of `generate_overdue_frequency_row` (sentinel 0,
unlike the selector's 9999). -/
def extract_days_blend (info : Option String) : ℤ :=
  match info with
  | none => 0
  | some s =>
    match searchDays s.data with
    | some n => (n : ℤ)
    | none => 0

/-- `{item['ball']: extract_days(item.get('last_drawn_info', '')) for item in
cold_data if isinstance(item.get('ball'), int)}`. -/
def blendOverdueMap (cold : List Rec) : List (ℤ × ℤ) :=
  cold.foldl
    (fun d r =>
      if isIntV r.ball then dictUpsert d (intV r.ball) (extract_days_blend r.last_drawn_info)
      else d)
    []

/-- The dedupe loop of `generate_overdue_frequency_row`: append unseen picks,
break as soon as `n` are selected. -/
def pickUniqueBreak (n : ℕ) : List ℤ → List ℤ → List ℤ
  | [], sel => sel
  | p :: rest, sel =>
    if p ∈ sel then pickUniqueBreak n rest sel
    else
      let sel2 := sel ++ [p]
      if sel2.length = n then sel2 else pickUniqueBreak n rest sel2

/-- The deterministic fallback fill: walk the pool sorted by overdue days
(descending), appending unused balls, until the row is complete. -/
def fillMostOverdue (n : ℕ) : List ℤ → List ℤ → List ℤ
  | [], sel => sel
  | b :: rest, sel =>
    let sel2 := if b ∈ sel then sel else sel ++ [b]
    if sel2.length = n then sel2 else fillMostOverdue n rest sel2

/-- `generate_overdue_frequency_row(stats, num_needed)`: weight every ball by
normalized overdue days (weight 2.0) plus normalized frequency (weight 0.2)
plus 0.1, draw `3 * num_needed` weighted picks, keep first-seen uniques, and
fill any shortfall deterministically with the most overdue unused balls. -/
def gofrWeights (stats : Stats) : List ℚ :=
  let freq_map := intFreqMap stats.numerical
  let overdue_map := blendOverdueMap stats.cold
  -- max(values, default=0) or 1
  let max_days := let m := listMaxD (overdue_map.map (fun p => p.2)) 0; if m = 0 then 1 else m
  let max_freq := let m := listMaxD (freq_map.map (fun p => p.2)) 0; if m = 0 then 1 else m
  let OVERDUE_WEIGHT : ℚ := 2
  let FREQ_WEIGHT : ℚ := 1 / 5
  let BASE_MIN_WEIGHT : ℚ := 1 / 10
  all_balls.map fun b =>
    OVERDUE_WEIGHT * ((dictGetD overdue_map b 0 : ℚ) / (max_days : ℚ)) +
      FREQ_WEIGHT * ((dictGetD freq_map b 0 : ℚ) / (max_freq : ℚ)) + BASE_MIN_WEIGHT

/-- `sorted(all_balls, key=lambda x: overdue_map.get(x, 0), reverse=True)`:
single-key reverse sort, expressed through the pair key `(d, 0)`. -/
def gofrByOverdue (stats : Stats) : List ℤ :=
  pySortKey (fun x => (dictGetD (blendOverdueMap stats.cold) x 0, 0)) true all_balls

/-- The first-seen unique values of the weighted sample of row 2. -/
def gofrSelected (n : ℕ) (rng : Rng) : List ℤ :=
  pickUniqueBreak n (pyChoices all_balls (n * 3) rng.c2) []

def generate_overdue_frequency_row (stats : Stats) (num_needed : ℕ) (rng : Rng) :
    Except Unit (List ℤ) :=
  if (blendOverdueMap stats.cold).isEmpty && (intFreqMap stats.numerical).isEmpty then
    match pySample rng.sampler all_balls num_needed with
    | some s => Except.ok (sortAsc s)
    | none => Except.error ()
  -- try random.choices: raises exactly when the total weight is non-positive
  else if (gofrWeights stats).sum ≤ 0 then
    match pySample rng.sampler all_balls num_needed with
    | some s => Except.ok (sortAsc s)
    | none => Except.error ()
  else
    let selected := gofrSelected num_needed rng
    if selected.length < num_needed then
      Except.ok (sortAsc (fillMostOverdue num_needed (gofrByOverdue stats) selected))
    else Except.ok (sortAsc selected)

/-! ### `parse_table_data`

The DOM is abstracted to what the function reads from each `<tr>`: the cell
texts with their tag kind, whether the first cell holds a `span.ball`, and the
texts of the row's `span.ball` elements.  The input list is the row list the
function iterates (the `tbody` rows, or the whole-table fallback).
`Except.error` models an uncaught `IndexError`. -/

/-- One `<td>`/`<th>` cell of a statistics table row. -/
structure HCell where
  text : String
  isTh : Bool := false
  hasBallSpan : Bool := false
deriving DecidableEq, Repr

/-- One `<tr>` of a statistics table. -/
structure HRow where
  cells : List HCell := []
  ballTexts : List String := []
deriving DecidableEq, Repr

/-- Fallback record of the 3-column single-ball branch:
`{'ball': ball_int, 'drawn': row_data[1], 'last_drawn_info': row_data[2]}`.
The fallback line itself raises `IndexError` when the row has under 3 cells. -/
def ptdFallback3 (ball_int : Option PyVal) (row_data : List String) :
    Except Unit (Option Rec) :=
  match row_data[1]?, row_data[2]? with
  | some t1, some t2 =>
    Except.ok (some { ball := ball_int, drawn := some (PyVal.str t1), last_drawn_info := some t2 })
  | _, _ => Except.error ()

/-- Fallback record of the pair/triplet branches:
`{'balls': balls_int, 'drawn': row_data[i]}`. -/
def ptdFallbackG (balls_int : List PyVal) (row_data : List String) (i : ℕ) :
    Except Unit (Option Rec) :=
  match row_data[i]? with
  | some t => Except.ok (some { balls := balls_int, drawn := some (PyVal.str t) })
  | none => Except.error ()

/-- Processing of one table row by `parse_table_data`.  `ok none` is the
`continue` of the heading/arity filter; every structured row is kept (each
branch puts a `ball` or `balls` key in the item, so the final
`'ball' in item or 'balls' in item` test always passes). -/
def acceptedRow (expected_cols : ℕ) (row : HRow) : Bool :=
  !((row.cells.any (fun c => c.isTh) || decide (row.cells.length ≠ expected_cols)) &&
    !(decide (0 < row.cells.length) &&
      ((row.cells.head?.map fun c => c.hasBallSpan).getD false)))

def parseRow (expected_cols : ℕ) (row : HRow) : Except Unit (Option Rec) :=
  let cells := row.cells
  if !(acceptedRow expected_cols row) then
    Except.ok none
  else
    let row_data := cells.map (fun c => c.text)
    let balls := row.ballTexts
    -- try: ball_int = int(balls[0]) if len(balls)==1 else None;
    --      balls_int = [int(b) for b in balls]
    -- a failure anywhere leaves every ball as its original string
    let convOk := balls.all fun b => (pyInt b).isSome
    let balls_int : List PyVal :=
      if convOk then balls.map (fun b => PyVal.int ((pyInt b).getD 0))
      else balls.map PyVal.str
    let ball_int : Option PyVal := if balls_int.length = 1 then balls_int.head? else none
    if expected_cols = 3 ∧ balls_int.length = 1 ∧ ball_int.isSome then
      -- try: drawn_count = int(row_data[1].replace(',', '')); keep row_data[2]
      match row_data[1]? with
      | some t1 =>
        match pyInt (stripCommas t1) with
        | some dn =>
          match row_data[2]? with
          | some t2 =>
            Except.ok (some { ball := ball_int, drawn := some (PyVal.int dn),
                              last_drawn_info := some t2 })
          | none => ptdFallback3 ball_int row_data
        | none => ptdFallback3 ball_int row_data
      | none => ptdFallback3 ball_int row_data
    else if expected_cols = 2 ∧ balls_int.length = 1 ∧ ball_int.isSome then
      -- item = {'ball': ball_int, 'last_drawn_info': row_data[1]} (unguarded index)
      match row_data[1]? with
      | some t1 => Except.ok (some { ball := ball_int, last_drawn_info := some t1 })
      | none => Except.error ()
    else if expected_cols = 3 ∧ balls_int.length = 2 then
      match row_data[2]? with
      | some t2 =>
        match pyInt (stripCommas t2) with
        | some dn => Except.ok (some { balls := balls_int, drawn := some (PyVal.int dn) })
        | none => ptdFallbackG balls_int row_data 2
      | none => Except.error ()
    else if expected_cols = 4 ∧ balls_int.length = 3 then
      match row_data[3]? with
      | some t3 =>
        match pyInt (stripCommas t3) with
        | some dn => Except.ok (some { balls := balls_int, drawn := some (PyVal.int dn) })
        | none => ptdFallbackG balls_int row_data 3
      | none => Except.error ()
    else
      -- fallback: retry the int conversion ball by ball
      let processed_balls := balls_int.map fun b =>
        match b with
        | PyVal.str s =>
          match pyInt s with
          | some m => PyVal.int m
          | none => PyVal.str s
        | PyVal.int m => PyVal.int m
      Except.ok (some { balls := processed_balls })

/-- `parse_table_data(table, expected_cols)` over the abstracted row list. -/
def parse_table_data (rows : List HRow) (expected_cols : ℕ) : Except Unit (List Rec) :=
  match rows with
  | [] => Except.ok []
  | r :: rest =>
    match parseRow expected_cols r with
    | Except.error e => Except.error e
    | Except.ok none => parse_table_data rest expected_cols
    | Except.ok (some item) =>
      match parse_table_data rest expected_cols with
      | Except.error e => Except.error e
      | Except.ok l => Except.ok (item :: l)

/-! ### `parse_numerical_order` -/

/-- One `div.tableCell` of the numeric-order listing: the `div.ball` text when
present, and the `strong` text after `Drawn:` when present (`none` collapses
both "no `Drawn:` text" and "no `strong` tag", which leave the default `'0'`). -/
structure NCell where
  ballText : Option String := none
  drawnText : Option String := none
deriving DecidableEq, Repr

/-- `parse_numerical_order(soup)` over the abstracted cell list: parse ball and
count; an unparsable count degrades to `drawn = 0`, an unparsable ball drops
the cell. -/
def parse_numerical_order (cells : List NCell) : List Rec :=
  cells.filterMap fun cell =>
    match cell.ballText with
    | none => none
    | some bt =>
      let dt := (cell.drawnText).getD "0"
      match pyInt bt with
      | some b =>
        match pyInt (stripCommas dt) with
        | some d => some { ball := some (PyVal.int b), drawn := some (PyVal.int d) }
        | none => some { ball := some (PyVal.int b), drawn := some (PyVal.int 0) }
      | none => none

/-! ### `generate_output_rows` -/

/-- Equality of embedded run results is decidable (needed to evaluate the
embedding on concrete inputs). -/
instance {ε α : Type} [DecidableEq ε] [DecidableEq α] : DecidableEq (Except ε α) := fun a b =>
  match a, b with
  | Except.error e1, Except.error e2 =>
    if h : e1 = e2 then isTrue (by rw [h]) else isFalse (by intro hc; cases hc; exact h rfl)
  | Except.ok x, Except.ok y =>
    if h : x = y then isTrue (by rw [h]) else isFalse (by intro hc; cases hc; exact h rfl)
  | Except.error e1, Except.ok y => isFalse (by intro hc; cases hc)
  | Except.ok x, Except.error e2 => isFalse (by intro hc; cases hc)

/-- One entry of the final row list: a row, or the `"duplicate"` sentinel
string. -/
inductive OutRow where
  | row : List ℤ → OutRow
  | dup : OutRow
deriving DecidableEq, Repr

/-- The final dedup scan with its running `seen` set. -/
def markDupGo : List (List ℤ) → List (List ℤ) → List OutRow
  | [], _ => []
  | r :: rest, seen =>
    (if r ∈ seen then OutRow.dup else OutRow.row r) ::
      markDupGo rest (if r ∈ seen then seen else r :: seen)

/-- The trailing loop of `generate_output_rows`: replace every repetition of an
earlier row (as the exact tuple, i.e. sorted list) by the sentinel, in place. -/
def mark_duplicate_rows (rows : List (List ℤ)) : List OutRow := markDupGo rows []

/-- `get_numbers_by_frequency(stats.get('numerical', []), 50, highest=True)`. -/
def orchMostCommon (stats : Stats) : List ℤ := get_numbers_by_frequency stats.numerical 50 true

/-- `get_numbers_by_overdue(stats.get('cold', []), 50)`. -/
def orchMostOverdue (stats : Stats) : List ℤ := get_numbers_by_overdue stats.cold 50

/-- `get_numbers_by_least_frequent(stats.get('least_often', []), 50)`. -/
def orchLeastCommon (stats : Stats) : List ℤ :=
  get_numbers_by_least_frequent stats.least_often 50

/-- Orchestrator state: the accepted rows, the `used_numbers_global` set, and
(pure bookkeeping for the statements, not data the source keeps) one boolean
per attempted later row recording whether it was accepted. -/
structure OrchSt where
  rows : List (List ℤ)
  used : List ℤ
  gs : List Bool
deriving DecidableEq, Repr

/-- Row 2 of `generate_output_rows`: accept the overdue-frequency row iff it
has exactly `n` numbers, else skip it. -/
def row2Step (stats : Stats) (n : ℕ) (rng : Rng) (st : OrchSt) : Except Unit OrchSt :=
  match generate_overdue_frequency_row stats n rng with
  | Except.error e => Except.error e
  | Except.ok row2 =>
    if row2.length = n then
      Except.ok ⟨st.rows ++ [row2], st.used ++ row2, st.gs ++ [true]⟩
    else Except.ok ⟨st.rows, st.used, st.gs ++ [false]⟩

/-- `d[k] = v` for the PyVal-keyed dict of row 3. -/
def pvUpsert (d : List (PyVal × PyVal)) (k v : PyVal) : List (PyVal × PyVal) :=
  if d.any (fun p => p.1 == k) then d.map (fun p => if p.1 = k then (k, v) else p)
  else d ++ [(k, v)]

/-- `{item['ball']: item['drawn'] for item in stats.get('numerical', [])}`:
unlike the generators' comprehension this one has no isinstance guard, so a
record without the keys raises `KeyError`. -/
def pyDictPVGo (acc : List (PyVal × PyVal)) : List Rec → Except Unit (List (PyVal × PyVal))
  | [] => Except.ok acc
  | r :: rest =>
    match r.ball, r.drawn with
    | some k, some v => pyDictPVGo (pvUpsert acc k v) rest
    | _, _ => Except.error ()

/-- `d.get(k, v0)`. -/
def pvDictGetD (d : List (PyVal × PyVal)) (k : PyVal) (v0 : PyVal) : PyVal :=
  match d.find? (fun p => p.1 == k) with
  | some p => p.2
  | none => v0

def pvIsInt : PyVal → Bool
  | PyVal.int _ => true
  | PyVal.str _ => false

/-- `sum(weights)` once all weights are ints. -/
def pvSum (l : List PyVal) : ℤ :=
  l.foldl
    (fun a v =>
      a + match v with
          | PyVal.int m => m
          | PyVal.str _ => 0)
    0

/-- Row 3's weighted sampling-without-replacement loop.  Each iteration models
one `random.choices(temp_cands, temp_weights, k=1)` call: it raises (`none`,
leading to the slice fallback) iff some weight is not an int or the current
total weight is non-positive; otherwise the oracle picks an element, which is
appended and removed (first occurrence of the value, as `list.index` does). -/
def row3Loop (ridx : ℕ → ℕ) (n : ℕ) : ℕ → List ℤ → List PyVal → List ℤ → Option (List ℤ)
  | i, cands, ws, sel =>
    if h : n ≤ sel.length ∨ cands = [] then some sel
    else if ¬((ws.all pvIsInt) = true ∧ 0 < pvSum ws) then none
    else
      let k := ridx i % cands.length
      let pick := cands.getD k 0
      let idx := cands.findIdx (fun x => x == pick)
      row3Loop ridx n (i + 1) (cands.eraseIdx idx) (ws.eraseIdx idx) (sel ++ [pick])
  termination_by _ cands _ _ => cands.length
  decreasing_by
    simp only [not_or] at h
    have hlen : 0 < cands.length := List.length_pos.mpr h.2
    have hk : ridx i % cands.length < cands.length := Nat.mod_lt _ hlen
    have hmem : cands.getD (ridx i % cands.length) 0 ∈ cands := by
      have : cands.getD (ridx i % cands.length) 0 = cands.get ⟨_, hk⟩ := by
        simp [List.getD_eq_getElem?_getD, List.getElem?_eq_getElem hk]
      rw [this]; exact List.get_mem _ _ hk
    have hidx : cands.findIdx (fun x => x == cands.getD (ridx i % cands.length) 0) <
        cands.length :=
      List.findIdx_lt_length_of_exists ⟨_, hmem, by simp⟩
    rw [List.length_eraseIdx, if_pos hidx]
    omega

/-- The row-3 candidate list: most-common numbers not used by rows 1-2. -/
def row3Cands (stats : Stats) (used : List ℤ) : List ℤ :=
  (orchMostCommon stats).filter (fun num => num ∉ used)

/-- The row-3 weighted-sampling-without-replacement result, with the
`row3_candidates[:numbers_per_row]` slice fallback on a sampling error. -/
def row3Selected (stats : Stats) (n : ℕ) (rng : Rng) (used : List ℤ)
    (fm : List (PyVal × PyVal)) : List ℤ :=
  let cands := row3Cands stats used
  let ws := cands.map fun num => pvDictGetD fm (PyVal.int num) (PyVal.int 1)
  match row3Loop rng.c3 n 0 cands ws [] with
  | some sel => sel
  | none => cands.take n

/-- Row 3's selection after the uniform random fill of any remaining slots
(`except: pass` leaves the selection unchanged). -/
def row3Filled (stats : Stats) (n : ℕ) (rng : Rng) (used : List ℤ)
    (fm : List (PyVal × PyVal)) : List ℤ :=
  let selected := row3Selected stats n rng used fm
  if selected.length < n then
    match pySample rng.sampler (all_balls.filter fun x => x ∉ used ∧ x ∉ selected)
        (n - selected.length) with
    | some fill => selected ++ fill
    | none => selected
  else selected

/-- Row 3 of `generate_output_rows`: weighted sampling without replacement from
the not-yet-used most-common numbers, slice fallback on a sampling error,
then a uniform random fill of any remaining slots. -/
def row3Step (stats : Stats) (n : ℕ) (rng : Rng) (st : OrchSt) : Except Unit OrchSt :=
  if (row3Cands stats st.used).isEmpty then Except.ok ⟨st.rows, st.used, st.gs ++ [false]⟩
  else
    match pyDictPVGo [] stats.numerical with
    | Except.error e => Except.error e
    | Except.ok fm =>
      if (row3Filled stats n rng st.used fm).length = n then
        Except.ok ⟨st.rows ++ [sortAsc (row3Filled stats n rng st.used fm)],
          st.used ++ sortAsc (row3Filled stats n rng st.used fm), st.gs ++ [true]⟩
      else Except.ok ⟨st.rows, st.used, st.gs ++ [false]⟩

/-- Row 4 of `generate_output_rows`: 3 sampled hot + up to 3 sampled cold (from
those not already picked) + a uniform fill from the unselected balls; accepted
iff exactly `n` numbers result.  This row never touches `used_numbers_global`. -/
def row4Sel (stats : Stats) (n : ℕ) (rng : Rng) : List ℤ :=
  let hot_pool := (orchMostCommon stats).take 15
  let cold_pool := (orchMostOverdue stats).take 15
  let sel1 :=
    match pySample rng.sampler hot_pool 3 with
    | some hp => insertAllNew [] hp
    | none => insertAllNew [] hot_pool  -- except: update with the whole pool
  let cold_cands := cold_pool.filter (fun num => num ∉ sel1)
  let can_pick := min 3 cold_cands.length
  let sel2 :=
    if 0 < can_pick then
      match pySample rng.sampler cold_cands can_pick with
      | some cp => insertAllNew sel1 cp
      | none => sel1  -- defensive except: selection unchanged
    else sel1
  if sel2.length < n then
    let remaining := all_balls.filter (fun x => x ∉ sel2)
    let can_fill := min (n - sel2.length) remaining.length
    if 0 < can_fill then
      match pySample rng.sampler remaining can_fill with
      | some fp => insertAllNew sel2 fp
      | none => sel2  -- except: row may stay incomplete
    else sel2
  else sel2

def row4Step (stats : Stats) (n : ℕ) (rng : Rng) (st : OrchSt) : Except Unit OrchSt :=
  if ((orchMostCommon stats).take 15).length < 3 ∨ ((orchMostOverdue stats).take 15).length < 3
  then Except.ok ⟨st.rows, st.used, st.gs ++ [false]⟩
  else if (row4Sel stats n rng).length = n then
    Except.ok ⟨st.rows ++ [sortAsc (row4Sel stats n rng)], st.used, st.gs ++ [true]⟩
  else Except.ok ⟨st.rows, st.used, st.gs ++ [false]⟩

/-- Row 5 of `generate_output_rows`: deterministic hot/cold mix from ranks
after the row-4 slices, via `select_unique_combination`. -/
def row5Row (stats : Stats) (n : ℕ) (rng : Rng) : List ℤ :=
  select_unique_combination rng.setf ((orchMostCommon stats).drop 3) 4
    ((orchMostOverdue stats).drop 3) 3 n

def row5Step (stats : Stats) (n : ℕ) (rng : Rng) (st : OrchSt) : Except Unit OrchSt :=
  if 4 ≤ ((orchMostCommon stats).drop 3).length ∧ 3 ≤ ((orchMostOverdue stats).drop 3).length
  then
    if (row5Row stats n rng).length = n then
      Except.ok ⟨st.rows ++ [sortAsc (row5Row stats n rng)], st.used, st.gs ++ [true]⟩
    else Except.ok ⟨st.rows, st.used, st.gs ++ [false]⟩
  else Except.ok ⟨st.rows, st.used, st.gs ++ [false]⟩

/-- Row 6 of `generate_output_rows`: a uniform sample from the "middle ground"
(balls outside the top-15 hot/least/cold lists), falling back to a uniform
sample of the whole pool.  The fallback inside the first branch is outside any
handler, so its failure would propagate. -/
def row6Middle (stats : Stats) : List ℤ :=
  all_balls.filter (fun x => x ∉ (orchMostCommon stats).take 15 ++
    (orchLeastCommon stats).take 15 ++ (orchMostOverdue stats).take 15)

def row6Step (stats : Stats) (n : ℕ) (rng : Rng) (st : OrchSt) : Except Unit OrchSt :=
  let middle_pool := row6Middle stats
  if n ≤ middle_pool.length then
    match pySample rng.sampler middle_pool n with
    | some r6 => Except.ok ⟨st.rows ++ [sortAsc r6], st.used, st.gs ++ [true]⟩
    | none =>
      match pySample rng.sampler all_balls n with
      | some r6 => Except.ok ⟨st.rows ++ [sortAsc r6], st.used, st.gs ++ [true]⟩
      | none => Except.error ()
  else
    match pySample rng.sampler all_balls n with
    | some r6 => Except.ok ⟨st.rows ++ [sortAsc r6], st.used, st.gs ++ [true]⟩
    | none => Except.ok ⟨st.rows, st.used, st.gs ++ [false]⟩  -- except: skip row 6

/-- Rows 2-6 of `generate_output_rows`, starting from the accepted row 1. -/
def orchRows (stats : Stats) (n : ℕ) (rng : Rng) (row1 : List ℤ) : Except Unit OrchSt :=
  match row2Step stats n rng ⟨[sortAsc row1], row1, []⟩ with
  | Except.error e => Except.error e
  | Except.ok st2 =>
    match row3Step stats n rng st2 with
    | Except.error e => Except.error e
    | Except.ok st3 =>
      match row4Step stats n rng st3 with
      | Except.error e => Except.error e
      | Except.ok st4 =>
        match row5Step stats n rng st4 with
        | Except.error e => Except.error e
        | Except.ok st5 => row6Step stats n rng st5

/-- The orchestrator's upfront validation: `most_common_all` nonempty and long
enough for one row. -/
def precheckOk (stats : Stats) (n : ℕ) : Bool :=
  !((orchMostCommon stats).isEmpty || decide ((orchMostCommon stats).length < n))

/-- `generate_output_rows(stats, num_rows=6, numbers_per_row=n)`: validate the
most-common pool, generate row 1 (aborting the whole run on a wrong-size
result), generate rows 2-6 best-effort, then mark duplicate rows. -/
def generate_output_rows (stats : Stats) (n : ℕ) (rng : Rng) : Except Unit (List OutRow) :=
  if !(precheckOk stats n) then Except.ok []
  else
    match generate_probabilistic_row stats n rng with
    | Except.error e => Except.error e
    | Except.ok row1 =>
      if row1.length = n then
        match orchRows stats n rng row1 with
        | Except.error e => Except.error e
        | Except.ok st => Except.ok (mark_duplicate_rows st.rows)
      else Except.ok []

/-! ### Spec-side definitions used by the claim statements -/

/-- Ball of a record (evaluated on records whose ball passed `isinstance`). -/
def ballOf (r : Rec) : ℤ := intV r.ball

/-- Drawn count of a record (evaluated on validated records). -/
def drawnOf (r : Rec) : ℤ := intV r.drawn

/-- The validated records of the frequency selectors. -/
def validFreq (numerical : List Rec) : List Rec :=
  numerical.filter (fun r => isIntV r.drawn && isIntV r.ball)

/-- Drawn count of the unique validated record carrying ball `b` (used to state
sortedness of a selector output over ball numbers alone). -/
def drawnOfBall (numerical : List Rec) (b : ℤ) : ℤ :=
  match (validFreq numerical).find? (fun r => decide (ballOf r = b)) with
  | some r => drawnOf r
  | none => 0

/-- Keep the first occurrence of every value, in order (the order
`dict.fromkeys`-style dedup would give). -/
def firstUniques : List ℤ → List ℤ → List ℤ
  | [], acc => acc
  | x :: rest, acc => firstUniques rest (if x ∈ acc then acc else acc ++ [x])

/-- Modelled from the amended C2 wording: days-ago value of a record — the
first integer preceding `day(s) ago` when the pattern matches, 0 when
`lastDrawnInfo` is missing or empty, 9999 when it is present, nonempty and
unmatched. -/
def daysAgoAmended (info : Option String) : ℤ :=
  match info with
  | none => 0
  | some s =>
    if s = "" then 0
    else
      match searchDays s.data with
      | some n => (n : ℤ)
      | none => 9999

/-- Modelled from the amended C2 wording: rank records with an integer ball by
`(daysAgo, ball)` jointly descending, then return the first `count` unique
balls in that order. -/
def byOverdueAmended (cold : List Rec) (count : ℕ) : List ℤ :=
  let ranked := cold.filterMap fun r =>
    match r.ball with
    | some (PyVal.int b) => some (b, daysAgoAmended r.last_drawn_info)
    | _ => none
  let ordered := pySortKey (fun p => (p.2, p.1)) true ranked
  (firstUniques (ordered.map fun p => p.1) []).take count

/-- A sampler usable in concrete witnesses: the first `k` pool elements. -/
def takeSampler : List ℤ → ℕ → List ℤ := fun pool k => pool.take k

/-- A set-enumeration function usable in concrete witnesses. -/
def dedupSetf : List ℤ → List ℤ := fun l => l.dedup

/-- A fully concrete oracle for witnesses. -/
def rng0 : Rng :=
  { c1 := fun i => i, c2 := fun i => i, c3 := fun i => i,
    sampler := takeSampler, setf := dedupSetf }

/-- Input of the C1 scenario. -/
def c1recs : List Rec :=
  [{ ball := some (PyVal.int 1), drawn := some (PyVal.int 10) },
   { ball := some (PyVal.int 2), drawn := some (PyVal.int 20) },
   { ball := some (PyVal.int 3), drawn := some (PyVal.int 10) }]

/-- Two records sharing one ball number (C3 counterexample input). -/
def c3recs : List Rec :=
  [{ ball := some (PyVal.int 1), drawn := some (PyVal.int 5) },
   { ball := some (PyVal.int 1), drawn := some (PyVal.int 5) }]

/-- Two records with equal overdue days (C2 counterexample input). -/
def c2recs : List Rec :=
  [{ ball := some (PyVal.int 1), last_drawn_info := some "5 days ago" },
   { ball := some (PyVal.int 2), last_drawn_info := some "5 days ago" }]

/-- A 3-column row whose ball text does not parse (C7 counterexample input). -/
def c7row : HRow :=
  { cells := [{ text := "abc" }, { text := "5" }, { text := "2 days ago" }],
    ballTexts := ["abc"] }

/-- The record the source keeps for `c7row`: the unparsed ball text is
preserved, the row is not dropped. -/
def c7rec : Rec :=
  { ball := some (PyVal.str "abc"), drawn := some (PyVal.int 5),
    last_drawn_info := some "2 days ago" }

/-- A numeric-order cell carrying an out-of-range ball (C8 counterexample
input). -/
def c8cell : NCell := { ballText := some "99", drawnText := some "5" }

/-- The numerical records all carry `ball` and `drawn` keys (what
`parse_numerical_order` produces; without it row 3's unguarded dict
comprehension raises `KeyError`). -/
def RecsKeyed (rs : List Rec) : Prop := ∀ r ∈ rs, r.ball.isSome ∧ r.drawn.isSome

/-- What one later-row step does to the orchestrator state: either it accepts
exactly one row and records `true`, or it changes nothing and records
`false`. -/
def StepProgress (st st2 : OrchSt) : Prop :=
  (∃ r, st2.rows = st.rows ++ [r] ∧ st2.gs = st.gs ++ [true]) ∨
    (st2.rows = st.rows ∧ st2.gs = st.gs ++ [false])

/-- A concrete statistics snapshot: balls 1-7 each drawn once, no overdue or
least-often data (witness scenario). -/
def stats7 : Stats :=
  { numerical :=
      [{ ball := some (PyVal.int 1), drawn := some (PyVal.int 1) },
       { ball := some (PyVal.int 2), drawn := some (PyVal.int 1) },
       { ball := some (PyVal.int 3), drawn := some (PyVal.int 1) },
       { ball := some (PyVal.int 4), drawn := some (PyVal.int 1) },
       { ball := some (PyVal.int 5), drawn := some (PyVal.int 1) },
       { ball := some (PyVal.int 6), drawn := some (PyVal.int 1) },
       { ball := some (PyVal.int 7), drawn := some (PyVal.int 1) }] }

/-- Row 1 of the witness run. -/
def row17 : List ℤ := [1, 2, 3, 4, 5, 6, 7]

/-- The orchestrator state after rows 2-6 of the witness run: row 2 duplicates
row 1, rows 3-5 are skipped, row 6 samples the middle pool. -/
def st7 : OrchSt :=
  { rows := [[1, 2, 3, 4, 5, 6, 7], [1, 2, 3, 4, 5, 6, 7], [8, 9, 10, 11, 12, 13, 14]],
    used := [1, 2, 3, 4, 5, 6, 7, 1, 2, 3, 4, 5, 6, 7],
    gs := [true, false, false, false, true] }

/-! ## Helper lemmas -/

theorem sortAsc_perm (l : List ℤ) : List.Perm (sortAsc l) l :=
  List.perm_insertionSort _ l

theorem sortAsc_sorted (l : List ℤ) : (sortAsc l).Sorted (· ≤ ·) :=
  List.sorted_insertionSort _ l

theorem sortAsc_length (l : List ℤ) : (sortAsc l).length = l.length :=
  (sortAsc_perm l).length_eq

theorem sortAsc_nodup {l : List ℤ} (h : l.Nodup) : (sortAsc l).Nodup :=
  (sortAsc_perm l).nodup_iff.mpr h

theorem sortAsc_mem {l : List ℤ} {x : ℤ} : x ∈ sortAsc l ↔ x ∈ l :=
  (sortAsc_perm l).mem_iff

theorem pySortKey_perm (key : α → ℤ × ℤ) (rev : Bool) (l : List α) :
    List.Perm (pySortKey key rev l) l :=
  List.perm_insertionSort _ l

theorem pySortKey_sorted (key : α → ℤ × ℤ) (rev : Bool) (l : List α) :
    (pySortKey key rev l).Pairwise (keyRel key rev) :=
  List.sorted_insertionSort _ l

theorem all_balls_length : all_balls.length = 47 := by decide

theorem all_balls_nodup : all_balls.Nodup := by decide

theorem mem_all_balls {x : ℤ} : x ∈ all_balls ↔ 1 ≤ x ∧ x ≤ 47 := by
  rw [all_balls, List.mem_map]
  constructor
  · rintro ⟨i, hi, hx⟩
    have hi2 : i < TOTAL_NUMBERS := List.mem_range.mp hi
    rw [TOTAL_NUMBERS] at hi2
    rw [Int.ofNat_eq_natCast] at hx
    omega
  · intro hb
    refine ⟨(x - 1).toNat, List.mem_range.mpr ?_, ?_⟩
    · rw [TOTAL_NUMBERS]; omega
    · rw [Int.ofNat_eq_natCast]; omega

theorem takeSampler_spec : SamplerSpec takeSampler := by
  intro pool k hk
  refine ⟨by simpa [takeSampler] using hk, ?_, ?_⟩
  · intro x hx
    exact List.mem_of_mem_take hx
  · intro hn
    exact hn.sublist (List.take_sublist _ _)

theorem dedupSetf_spec : SetFunSpec dedupSetf := by
  intro l
  exact List.Perm.refl _

theorem length_filter_notmem {l s : List ℤ} (hl : l.Nodup) :
    l.length - s.length ≤ (l.filter (fun x => x ∉ s)).length := by
  have hperm := List.filter_append_perm (fun x => decide (x ∈ s)) l
  have hlen : (l.filter (fun x => decide (x ∈ s))).length +
      (l.filter (fun x => !decide (x ∈ s))).length = l.length := by
    simpa [List.length_append] using hperm.length_eq
  have hsub : (l.filter (fun x => decide (x ∈ s))).length ≤ s.length := by
    refine List.Subperm.length_le (List.subperm_of_subset (hl.filter _) ?_)
    intro x hx
    simpa using List.of_mem_filter hx
  have heq : (l.filter (fun x => (x ∉ s : Bool))).length =
      (l.filter (fun x => !decide (x ∈ s))).length := by
    congr 1
    apply List.filter_congr
    intro x _
    simp [decide_not]
  omega

theorem takeUniqueUpTo_nodup (limit : ℕ) (xs : List ℤ) :
    ∀ acc : List ℤ, acc.Nodup → (takeUniqueUpTo limit xs acc).Nodup := by
  induction xs with
  | nil => intro acc h; simpa [takeUniqueUpTo] using h
  | cons x rest ih =>
    intro acc h
    rw [takeUniqueUpTo]
    by_cases hlen : acc.length < limit
    · rw [if_pos hlen]
      by_cases hx : x ∈ acc
      · rw [if_pos hx]; exact ih acc h
      · rw [if_neg hx]
        exact ih _ (by simp [List.nodup_append, h, hx])
    · rw [if_neg hlen]; exact h

theorem takeUniqueUpTo_subset (limit : ℕ) (xs : List ℤ) :
    ∀ acc y, y ∈ takeUniqueUpTo limit xs acc → y ∈ acc ∨ y ∈ xs := by
  induction xs with
  | nil => intro acc y hy; exact Or.inl (by simpa [takeUniqueUpTo] using hy)
  | cons x rest ih =>
    intro acc y hy
    rw [takeUniqueUpTo] at hy
    by_cases hlen : acc.length < limit
    · rw [if_pos hlen] at hy
      by_cases hx : x ∈ acc
      · rw [if_pos hx] at hy
        rcases ih acc y hy with h | h
        · exact Or.inl h
        · exact Or.inr (List.mem_cons_of_mem _ h)
      · rw [if_neg hx] at hy
        rcases ih _ y hy with h | h
        · rcases List.mem_append.mp h with h | h
          · exact Or.inl h
          · exact Or.inr (by simpa using Or.inl (List.mem_singleton.mp h))
        · exact Or.inr (List.mem_cons_of_mem _ h)
    · rw [if_neg hlen] at hy; exact Or.inl hy

theorem takeUniqueUpTo_len_le (limit : ℕ) (xs : List ℤ) :
    ∀ acc : List ℤ, acc.length ≤ limit → (takeUniqueUpTo limit xs acc).length ≤ limit := by
  induction xs with
  | nil => intro acc h; simpa [takeUniqueUpTo] using h
  | cons x rest ih =>
    intro acc h
    rw [takeUniqueUpTo]
    by_cases hlen : acc.length < limit
    · rw [if_pos hlen]
      by_cases hx : x ∈ acc
      · rw [if_pos hx]; exact ih acc h
      · rw [if_neg hx]
        exact ih _ (by simp; omega)
    · rw [if_neg hlen]; exact h

theorem insertAllNew_nil (acc : List ℤ) : insertAllNew acc [] = acc := rfl

theorem insertAllNew_cons (acc : List ℤ) (x : ℤ) (rest : List ℤ) :
    insertAllNew acc (x :: rest) = insertAllNew (if x ∈ acc then acc else acc ++ [x]) rest := rfl

theorem insertAllNew_nodup (xs : List ℤ) :
    ∀ acc : List ℤ, acc.Nodup → (insertAllNew acc xs).Nodup := by
  induction xs with
  | nil => intro acc h; simpa [insertAllNew_nil] using h
  | cons x rest ih =>
    intro acc h
    rw [insertAllNew_cons]
    by_cases hx : x ∈ acc
    · rw [if_pos hx]; exact ih acc h
    · rw [if_neg hx]; exact ih _ (by simp [List.nodup_append, h, hx])

theorem insertAllNew_subset (xs : List ℤ) :
    ∀ acc y, y ∈ insertAllNew acc xs → y ∈ acc ∨ y ∈ xs := by
  induction xs with
  | nil => intro acc y hy; exact Or.inl (by simpa [insertAllNew_nil] using hy)
  | cons x rest ih =>
    intro acc y hy
    rw [insertAllNew_cons] at hy
    by_cases hx : x ∈ acc
    · rw [if_pos hx] at hy
      rcases ih acc y hy with h | h
      · exact Or.inl h
      · exact Or.inr (List.mem_cons_of_mem _ h)
    · rw [if_neg hx] at hy
      rcases ih _ y hy with h | h
      · rcases List.mem_append.mp h with h | h
        · exact Or.inl h
        · exact Or.inr (by simpa using Or.inl (List.mem_singleton.mp h))
      · exact Or.inr (List.mem_cons_of_mem _ h)

theorem insertAllNew_length (xs : List ℤ) :
    ∀ acc : List ℤ, xs.Nodup → (∀ x ∈ xs, x ∉ acc) →
      (insertAllNew acc xs).length = acc.length + xs.length := by
  induction xs with
  | nil => intro acc _ _; simp [insertAllNew_nil]
  | cons x rest ih =>
    intro acc hnd hdis
    rw [insertAllNew_cons, if_neg (hdis x (List.mem_cons_self _ _))]
    have hx : x ∉ rest := (List.nodup_cons.mp hnd).1
    have := ih (acc ++ [x]) (List.nodup_cons.mp hnd).2 ?_
    · rw [this]; simp; omega
    · intro y hy
      simp only [List.mem_append, List.mem_singleton]
      rintro (h | rfl)
      · exact hdis y (List.mem_cons_of_mem _ hy) h
      · exact hx hy

theorem pickUniqueBreak_nodup (n : ℕ) (picks : List ℤ) :
    ∀ sel : List ℤ, sel.Nodup → (pickUniqueBreak n picks sel).Nodup := by
  induction picks with
  | nil => intro sel h; simpa [pickUniqueBreak] using h
  | cons p rest ih =>
    intro sel h
    rw [pickUniqueBreak]
    by_cases hp : p ∈ sel
    · rw [if_pos hp]; exact ih sel h
    · rw [if_neg hp]
      simp only
      split
      · exact by simp [List.nodup_append, h, hp]
      · exact ih _ (by simp [List.nodup_append, h, hp])

theorem pickUniqueBreak_subset (n : ℕ) (picks : List ℤ) :
    ∀ sel y, y ∈ pickUniqueBreak n picks sel → y ∈ sel ∨ y ∈ picks := by
  induction picks with
  | nil => intro sel y hy; exact Or.inl (by simpa [pickUniqueBreak] using hy)
  | cons p rest ih =>
    intro sel y hy
    rw [pickUniqueBreak] at hy
    by_cases hp : p ∈ sel
    · rw [if_pos hp] at hy
      rcases ih sel y hy with h | h
      · exact Or.inl h
      · exact Or.inr (List.mem_cons_of_mem _ h)
    · rw [if_neg hp] at hy
      simp only at hy
      have hy2 : y ∈ sel ++ [p] ∨ y ∈ rest := by
        split at hy
        · exact Or.inl hy
        · rcases ih _ y hy with h | h
          · exact Or.inl h
          · exact Or.inr h
      rcases hy2 with h | h
      · rcases List.mem_append.mp h with h | h
        · exact Or.inl h
        · exact Or.inr (by simpa using Or.inl (List.mem_singleton.mp h))
      · exact Or.inr (List.mem_cons_of_mem _ h)

theorem pickUniqueBreak_len_le (n : ℕ) (picks : List ℤ) :
    ∀ sel : List ℤ, sel.length < n → (pickUniqueBreak n picks sel).length ≤ n := by
  induction picks with
  | nil => intro sel h; rw [pickUniqueBreak]; omega
  | cons p rest ih =>
    intro sel h
    rw [pickUniqueBreak]
    by_cases hp : p ∈ sel
    · rw [if_pos hp]; exact ih sel h
    · rw [if_neg hp]
      simp only
      split
      · omega
      · refine ih _ ?_
        have : (sel ++ [p]).length = sel.length + 1 := by simp
        omega

theorem fillMostOverdue_spec (n : ℕ) (balls : List ℤ) :
    ∀ sel : List ℤ, sel.Nodup → sel.length < n → balls.Nodup →
      n ≤ sel.length + (balls.filter (fun b => b ∉ sel)).length →
      (fillMostOverdue n balls sel).length = n ∧ (fillMostOverdue n balls sel).Nodup ∧
        (∀ y ∈ fillMostOverdue n balls sel, y ∈ sel ∨ y ∈ balls) := by
  induction balls with
  | nil =>
    intro sel _ hlt _ hcount
    simp only [List.filter_nil, List.length_nil] at hcount
    exact ((by omega : False)).elim
  | cons b rest ih =>
    intro sel hnd hlt hbnd hcount
    have hbrest : b ∉ rest := (List.nodup_cons.mp hbnd).1
    have hrestnd : rest.Nodup := (List.nodup_cons.mp hbnd).2
    rw [fillMostOverdue]
    by_cases hb : b ∈ sel
    · rw [if_pos hb]
      have hfeq : (b :: rest).filter (fun x => (x ∉ sel : Bool)) =
          rest.filter (fun x => (x ∉ sel : Bool)) := by
        rw [List.filter_cons]
        simp [hb]
      rw [hfeq] at hcount
      split
      · exact ((by omega : False)).elim
      · have h := ih sel hnd hlt hrestnd hcount
        refine ⟨h.1, h.2.1, fun y hy => ?_⟩
        rcases h.2.2 y hy with hc | hc
        · exact Or.inl hc
        · exact Or.inr (List.mem_cons_of_mem _ hc)
    · rw [if_neg hb]
      have hnd2 : (sel ++ [b]).Nodup := by simp [List.nodup_append, hnd, hb]
      have hlen2 : (sel ++ [b]).length = sel.length + 1 := by simp
      have hfeq : (b :: rest).filter (fun x => (x ∉ sel : Bool)) =
          b :: rest.filter (fun x => (x ∉ sel : Bool)) := by
        rw [List.filter_cons]
        simp [hb]
      have hfeq2 : rest.filter (fun x => (x ∉ sel ++ [b] : Bool)) =
          rest.filter (fun x => (x ∉ sel : Bool)) := by
        apply List.filter_congr
        intro x hx
        have hxb : x ≠ b := fun hcon => hbrest (hcon ▸ hx)
        simp [List.mem_append, hxb]
      split
      · refine ⟨by assumption, hnd2, fun y hy => ?_⟩
        rcases List.mem_append.mp hy with hc | hc
        · exact Or.inl hc
        · exact Or.inr (by simpa using Or.inl (List.mem_singleton.mp hc))
      · have hlt2 : (sel ++ [b]).length < n := by omega
        have hcount2 : n ≤ (sel ++ [b]).length +
            (rest.filter (fun x => (x ∉ sel ++ [b] : Bool))).length := by
          rw [hfeq2, hlen2]
          rw [hfeq] at hcount
          simp only [List.length_cons] at hcount
          omega
        have h := ih (sel ++ [b]) hnd2 hlt2 hrestnd hcount2
        refine ⟨h.1, h.2.1, fun y hy => ?_⟩
        rcases h.2.2 y hy with hc | hc
        · rcases List.mem_append.mp hc with hd | hd
          · exact Or.inl hd
          · exact Or.inr (by simpa using Or.inl (List.mem_singleton.mp hd))
        · exact Or.inr (List.mem_cons_of_mem _ hc)

theorem firstUniques_append (xs : List ℤ) :
    ∀ acc : List ℤ, ∃ t, firstUniques xs acc = acc ++ t := by
  induction xs with
  | nil => intro acc; exact ⟨[], by simp [firstUniques]⟩
  | cons x rest ih =>
    intro acc
    rw [firstUniques]
    by_cases hx : x ∈ acc
    · rw [if_pos hx]; exact ih acc
    · rw [if_neg hx]
      obtain ⟨t, ht⟩ := ih (acc ++ [x])
      exact ⟨[x] ++ t, by rw [ht, List.append_assoc]⟩

theorem collectUnique_eq_firstUniques (count : ℕ) (xs : List ℤ) :
    ∀ acc : List ℤ, acc.length < count →
      collectUnique count xs acc = (firstUniques xs acc).take count := by
  induction xs with
  | nil =>
    intro acc hlen
    rw [collectUnique, firstUniques, List.take_of_length_le (by omega)]
  | cons x rest ih =>
    intro acc hlen
    rw [collectUnique, firstUniques]
    by_cases hx : x ∈ acc
    · rw [if_pos hx, if_pos hx]
      exact ih acc hlen
    · rw [if_neg hx, if_neg hx]
      simp only
      split
      · rename_i hstop
        obtain ⟨t, ht⟩ := firstUniques_append rest (acc ++ [x])
        rw [ht, List.take_append_eq_append_take]
        rw [List.take_of_length_le (by omega), Nat.sub_eq_zero_of_le (by omega)]
        simp
      · rename_i hstop
        have hlen2 : (acc ++ [x]).length = acc.length + 1 := by simp
        exact ih _ (by omega)

theorem drawnOfBall_eq {numerical : List Rec}
    (hnd : ((validFreq numerical).map ballOf).Nodup) {r : Rec}
    (hr : r ∈ validFreq numerical) : drawnOfBall numerical (ballOf r) = drawnOf r := by
  unfold drawnOfBall
  obtain ⟨r0, h0⟩ : ∃ r0,
      (validFreq numerical).find? (fun x => decide (ballOf x = ballOf r)) = some r0 :=
    Option.isSome_iff_exists.mp (List.find?_isSome.mpr ⟨r, hr, by simp⟩)
  rw [h0]
  have hr0mem := List.mem_of_find?_eq_some h0
  have hr0eq : ballOf r0 = ballOf r := by simpa using List.find?_some h0
  rw [List.inj_on_of_nodup_map hnd hr0mem hr hr0eq]

theorem overdueValid_eq (cold : List Rec) :
    overdueValid cold = cold.filterMap (fun r =>
      match r.ball with
      | some (PyVal.int b) => some (b, daysAgoAmended r.last_drawn_info)
      | _ => none) := by
  unfold overdueValid
  congr 1
  funext r
  cases hb : r.ball with
  | none => rfl
  | some v =>
    cases v with
    | str s => rfl
    | int b =>
      cases hi : r.last_drawn_info with
      | none => rfl
      | some s =>
        by_cases hs : s = ""
        · subst hs
          simp [daysAgoAmended]
        · simp only [daysAgoAmended, if_neg hs, extract_days]
          rw [if_pos hs]

/-! ## Claim C1 -/

/-- C1 counterexample: on the claimed input, `get_numbers_by_frequency` does
not return `[2, 1]` — Python's `reverse=True` reverses the whole
`(count, ball)` key, so ball 3 (not ball 1) follows ball 2. -/
theorem c1_counterexample : get_numbers_by_frequency c1recs 2 true ≠ [1, 2] ∧
    get_numbers_by_frequency c1recs 2 true ≠ [2, 1] := by
  exact ⟨by decide, by decide⟩

/-- C1 amended: `ByFrequency([{ball:1,drawn:10},{ball:2,drawn:20},
{ball:3,drawn:10}], count=2, highest=true)` returns `[2, 3]`: the sort key is
`(count, ball)` with the whole comparison reversed, so at equal drawn count the
ball with the *higher* ball number wins the tie-break. -/
theorem c1_theorem : get_numbers_by_frequency c1recs 2 true = [2, 3] := by decide

/-! ## Claim C3 -/

/-- C3 counterexample: on a list holding two records with the same ball, the
output of `get_numbers_by_frequency` contains a duplicate ball number ([1, 1]):
the function never deduplicates. -/
theorem c3_counterexample : get_numbers_by_frequency c3recs 2 true = [1, 1] ∧
    ¬ (get_numbers_by_frequency c3recs 2 true).Nodup := by
  exact ⟨by decide, by decide⟩

/-- C3 amended: provided the valid records carry pairwise distinct ball numbers
(the spec's own assumption about source records), the output of
`get_numbers_by_frequency` has no duplicate balls, has length at most `count`,
and is sorted by the `(drawn, ball)` key of each ball in the requested
direction. -/
theorem c3_theorem (numerical : List Rec) (count : ℕ) (highest : Bool)
    (hnd : ((validFreq numerical).map ballOf).Nodup) :
    (get_numbers_by_frequency numerical count highest).Nodup ∧
      (get_numbers_by_frequency numerical count highest).length ≤ count ∧
      (get_numbers_by_frequency numerical count highest).Pairwise
        (keyRel (fun b => (drawnOfBall numerical b, b)) highest) := by
  have hbody : get_numbers_by_frequency numerical count highest =
      if (validFreq numerical).isEmpty then []
      else ((pySortKey (fun r => (drawnOf r, ballOf r)) highest
        (validFreq numerical)).take count).map ballOf := rfl
  rw [hbody]
  by_cases hemp : (validFreq numerical).isEmpty
  · rw [if_pos hemp]
    exact ⟨List.nodup_nil, by simp, List.Pairwise.nil⟩
  · rw [if_neg hemp]
    have hperm := pySortKey_perm (fun r => (drawnOf r, ballOf r)) highest (validFreq numerical)
    have hmapperm : List.Perm
        ((pySortKey (fun r => (drawnOf r, ballOf r)) highest (validFreq numerical)).map ballOf)
        ((validFreq numerical).map ballOf) := hperm.map ballOf
    have hmapnd := hmapperm.nodup_iff.mpr hnd
    refine ⟨?_, ?_, ?_⟩
    · rw [List.map_take]
      exact hmapnd.sublist (List.take_sublist _ _)
    · rw [List.length_map]
      exact List.length_take_le _ _
    · have hsorted := pySortKey_sorted (fun r => (drawnOf r, ballOf r)) highest
        (validFreq numerical)
    -- transfer the record ordering to the ball numbers through drawnOfBall
      have hsorted2 : (pySortKey (fun r => (drawnOf r, ballOf r)) highest
          (validFreq numerical)).Pairwise (fun a b =>
            keyRel (fun x => (drawnOfBall numerical x, x)) highest (ballOf a) (ballOf b)) := by
        refine hsorted.imp_of_mem ?_
        intro a b ha hb hab
        have ha2 : a ∈ validFreq numerical := hperm.mem_iff.mp ha
        have hb2 : b ∈ validFreq numerical := hperm.mem_iff.mp hb
        unfold keyRel at hab ⊢
        dsimp only at hab ⊢
        rw [drawnOfBall_eq hnd ha2, drawnOfBall_eq hnd hb2]
        exact hab
      exact List.pairwise_map.mpr (hsorted2.sublist (List.take_sublist _ _))

/-- C3 witness: the amended theorem applied to the concrete record list
`c1recs` (distinct balls) with count 2. -/
theorem c3_witness :
    ((validFreq c1recs).map ballOf).Nodup ∧
      ((get_numbers_by_frequency c1recs 2 true).Nodup ∧
        (get_numbers_by_frequency c1recs 2 true).length ≤ 2 ∧
        (get_numbers_by_frequency c1recs 2 true).Pairwise
          (keyRel (fun b => (drawnOfBall c1recs b, b)) true)) :=
  ⟨by decide, c3_theorem c1recs 2 true (by decide)⟩

/-! ## Claim C2 -/

/-- C2 counterexample: two records with equal parsed days (5) sort to `[2, 1]`,
not `[1, 2]`: the tie-break at equal `daysAgo` is ball *descending* (Python's
`reverse=True` flips the whole `(days_ago, ball)` key), contradicting the
claimed ascending ball tie-break. -/
theorem c2_counterexample : get_numbers_by_overdue c2recs 2 = [2, 1] ∧
    ([2, 1] : List ℤ) ≠ [1, 2] :=
  ⟨by decide, by decide⟩

/-- C2 amended: for `count ≥ 1`, `get_numbers_by_overdue` assigns each
int-ball record the days value: the first integer before `day(s) ago` when the
pattern matches, 0 when `lastDrawnInfo` is missing *or empty*, 9999 when it is
present, nonempty and unmatched; sorts by `(daysAgo, ball)` jointly descending
(so at equal days the higher ball comes first); and returns the first `count`
unique balls in that order.  (At `count = 0` the source returns all unique
balls, not none, hence the hypothesis.) -/
theorem c2_theorem (cold : List Rec) (count : ℕ) (hcount : 1 ≤ count) :
    get_numbers_by_overdue cold count = byOverdueAmended cold count := by
  have h1 : get_numbers_by_overdue cold count =
      if (overdueValid cold).isEmpty then []
      else collectUnique count
        ((pySortKey (fun p => (p.2, p.1)) true (overdueValid cold)).map (fun p => p.1)) [] := rfl
  have h2 : byOverdueAmended cold count =
      (firstUniques ((pySortKey (fun p => (p.2, p.1)) true (overdueValid cold)).map
        (fun p => p.1)) []).take count := by
    unfold byOverdueAmended
    rw [← overdueValid_eq]
  rw [h1, h2]
  by_cases hemp : (overdueValid cold).isEmpty
  · rw [if_pos hemp]
    rw [List.isEmpty_iff.mp hemp]
    simp [pySortKey, List.insertionSort, firstUniques]
  · rw [if_neg hemp]
    exact collectUnique_eq_firstUniques count _ [] (by simpa using hcount)

/-- C2 witness: the amended theorem applied to the concrete cold list `c2recs`
with count 2. -/
theorem c2_witness : (1 : ℕ) ≤ 2 ∧
    get_numbers_by_overdue c2recs 2 = byOverdueAmended c2recs 2 :=
  ⟨by decide, c2_theorem c2recs 2 (by decide)⟩

theorem sucPhase1_mem (pool : List ℤ) : ∀ (c : ℕ) (sel : List ℤ),
    (∀ y ∈ (sucPhase1 c pool sel).1, y ∈ sel ∨ y ∈ pool) ∧
    (∀ y ∈ (sucPhase1 c pool sel).2, y ∈ pool) := by
  induction pool with
  | nil =>
    intro c sel
    have he : sucPhase1 c [] sel = (sel, []) := by cases c <;> rfl
    rw [he]
    exact ⟨fun y hy => Or.inl hy, fun y hy => absurd hy (List.not_mem_nil y)⟩
  | cons x rest ih =>
    intro c sel
    cases c with
    | zero => exact ⟨fun y hy => Or.inl hy, fun y hy => hy⟩
    | succ c =>
      have he : sucPhase1 (c + 1) (x :: rest) sel =
          if x ∈ sel then sucPhase1 (c + 1) rest sel else sucPhase1 c rest (sel ++ [x]) := rfl
      rw [he]
      by_cases hx : x ∈ sel
      · rw [if_pos hx]
        obtain ⟨h2, h3⟩ := ih (c + 1) sel
        exact ⟨fun y hy => (h2 y hy).imp id (List.mem_cons_of_mem x),
          fun y hy => List.mem_cons_of_mem x (h3 y hy)⟩
      · rw [if_neg hx]
        obtain ⟨h2, h3⟩ := ih c (sel ++ [x])
        refine ⟨fun y hy => ?_, fun y hy => List.mem_cons_of_mem x (h3 y hy)⟩
        rcases h2 y hy with hm | hm
        · rcases List.mem_append.mp hm with hm | hm
          · exact Or.inl hm
          · exact Or.inr (by simpa using Or.inl (List.mem_singleton.mp hm))
        · exact Or.inr (List.mem_cons_of_mem x hm)

theorem sucPhase2_mem (total : ℕ) (pool : List ℤ) : ∀ (c : ℕ) (sel : List ℤ),
    (∀ y ∈ (sucPhase2 total c pool sel).1, y ∈ sel ∨ y ∈ pool) ∧
    (∀ y ∈ (sucPhase2 total c pool sel).2, y ∈ pool) := by
  induction pool with
  | nil =>
    intro c sel
    have he : sucPhase2 total c [] sel = (sel, []) := by cases c <;> rfl
    rw [he]
    exact ⟨fun y hy => Or.inl hy, fun y hy => absurd hy (List.not_mem_nil y)⟩
  | cons x rest ih =>
    intro c sel
    cases c with
    | zero => exact ⟨fun y hy => Or.inl hy, fun y hy => hy⟩
    | succ c =>
      have he : sucPhase2 total (c + 1) (x :: rest) sel =
          if sel.length ≥ total then (sel, x :: rest)
          else if x ∈ sel then sucPhase2 total (c + 1) rest sel
          else sucPhase2 total c rest (sel ++ [x]) := rfl
      rw [he]
      by_cases hstop : sel.length ≥ total
      · rw [if_pos hstop]
        exact ⟨fun y hy => Or.inl hy, fun y hy => hy⟩
      · rw [if_neg hstop]
        by_cases hx : x ∈ sel
        · rw [if_pos hx]
          obtain ⟨h2, h3⟩ := ih (c + 1) sel
          exact ⟨fun y hy => (h2 y hy).imp id (List.mem_cons_of_mem x),
            fun y hy => List.mem_cons_of_mem x (h3 y hy)⟩
        · rw [if_neg hx]
          obtain ⟨h2, h3⟩ := ih c (sel ++ [x])
          refine ⟨fun y hy => ?_, fun y hy => List.mem_cons_of_mem x (h3 y hy)⟩
          rcases h2 y hy with hm | hm
          · rcases List.mem_append.mp hm with hm | hm
            · exact Or.inl hm
            · exact Or.inr (by simpa using Or.inl (List.mem_singleton.mp hm))
          · exact Or.inr (List.mem_cons_of_mem x hm)

theorem sucPhase3_mem (total : ℕ) (pool : List ℤ) : ∀ sel : List ℤ,
    ∀ y ∈ sucPhase3 total pool sel, y ∈ sel ∨ y ∈ pool := by
  induction pool with
  | nil => intro sel y hy; exact Or.inl (by simpa [sucPhase3] using hy)
  | cons x rest ih =>
    intro sel y hy
    rw [sucPhase3] at hy
    by_cases hstop : sel.length ≥ total
    · rw [if_pos hstop] at hy
      exact Or.inl hy
    · rw [if_neg hstop] at hy
      by_cases hx : x ∈ sel
      · rw [if_pos hx] at hy
        exact (ih sel y hy).imp id (List.mem_cons_of_mem x)
      · rw [if_neg hx] at hy
        rcases ih (sel ++ [x]) y hy with hm | hm
        · rcases List.mem_append.mp hm with hm | hm
          · exact Or.inl hm
          · exact Or.inr (by simpa using Or.inl (List.mem_singleton.mp hm))
        · exact Or.inr (List.mem_cons_of_mem x hm)

/-! ## Claim C9 -/

theorem suc_props (setf : List ℤ → List ℤ) (hf : SetFunSpec setf)
    (A : List ℤ) (a : ℕ) (B : List ℤ) (b : ℕ) (total : ℕ) :
    (select_unique_combination setf A a B b total).length ≤ total ∧
      (select_unique_combination setf A a B b total).Nodup ∧
      (∀ x ∈ select_unique_combination setf A a B b total, x ∈ A ∨ x ∈ B) := by
  have hbody : select_unique_combination setf A a B b total =
      (setf (sucPhase3 total (sucPhase2 total b B (sucPhase1 a A []).1).2
        (sucPhase3 total (sucPhase1 a A []).2
          (sucPhase2 total b B (sucPhase1 a A []).1).1))).take total := rfl
  rw [hbody]
  set s4 := sucPhase3 total (sucPhase2 total b B (sucPhase1 a A []).1).2
    (sucPhase3 total (sucPhase1 a A []).2 (sucPhase2 total b B (sucPhase1 a A []).1).1) with hs4
  have hperm := hf s4
  refine ⟨List.length_take_le _ _, ?_, ?_⟩
  · exact (hperm.nodup_iff.mpr (List.nodup_dedup s4)).sublist (List.take_sublist _ _)
  · intro x hx
    have hx2 : x ∈ s4 := by
      have := List.mem_of_mem_take hx
      exact List.mem_dedup.mp (hperm.mem_iff.mp this)
    have hmem : x ∈ A ∨ x ∈ B := by
      rcases sucPhase3_mem total (sucPhase2 total b B (sucPhase1 a A []).1).2 _ x hx2 with
        hm | hm
      · rcases sucPhase3_mem total (sucPhase1 a A []).2 _ x hm with hm2 | hm2
        · rcases (sucPhase2_mem total B b (sucPhase1 a A []).1).1 x hm2 with hm3 | hm3
          · rcases (sucPhase1_mem A a []).1 x hm3 with hm4 | hm4
            · exact absurd hm4 (List.not_mem_nil x)
            · exact Or.inl hm4
          · exact Or.inr hm3
        · exact Or.inl ((sucPhase1_mem A a []).2 x hm2)
      · exact Or.inr ((sucPhase2_mem total B b (sucPhase1 a A []).1).2 x hm)
    exact hmem

/-- C9: for every set-enumeration oracle, both input lists, both take-counts
and every total, `select_unique_combination` returns at most `total` values,
with no duplicates, each drawn from `list1` or `list2`; exhausted pools simply
yield a shorter list (the function is total). -/
theorem c9_theorem (setf : List ℤ → List ℤ) (hf : SetFunSpec setf)
    (A : List ℤ) (a : ℕ) (B : List ℤ) (b : ℕ) (total : ℕ) :
    (select_unique_combination setf A a B b total).length ≤ total ∧
      (select_unique_combination setf A a B b total).Nodup ∧
      (∀ x ∈ select_unique_combination setf A a B b total, x ∈ A ∨ x ∈ B) :=
  suc_props setf hf A a B b total

/-- C9 witness: the theorem applied to concrete pools, with the concrete
set-enumeration `dedupSetf`. -/
theorem c9_witness : SetFunSpec dedupSetf ∧
    ((select_unique_combination dedupSetf [1, 2, 3] 2 [3, 4] 2 3).length ≤ 3 ∧
      (select_unique_combination dedupSetf [1, 2, 3] 2 [3, 4] 2 3).Nodup ∧
      (∀ x ∈ select_unique_combination dedupSetf [1, 2, 3] 2 [3, 4] 2 3,
        x ∈ ([1, 2, 3] : List ℤ) ∨ x ∈ ([3, 4] : List ℤ))) :=
  ⟨dedupSetf_spec, c9_theorem dedupSetf dedupSetf_spec [1, 2, 3] 2 [3, 4] 2 3⟩

theorem pyChoices_mem (pop : List ℤ) (hpop : pop ≠ []) (k : ℕ) (idx : ℕ → ℕ) :
    ∀ x ∈ pyChoices pop k idx, x ∈ pop := by
  intro x hx
  simp only [pyChoices, List.mem_map, List.mem_range] at hx
  obtain ⟨i, _, hi⟩ := hx
  have hlt : idx i % pop.length < pop.length := Nat.mod_lt _ (List.length_pos.mpr hpop)
  have : pop.getD (idx i % pop.length) 0 = pop.get ⟨_, hlt⟩ := by
    simp [List.getD_eq_getElem?_getD, List.getElem?_eq_getElem hlt]
  rw [this] at hi
  rw [← hi]
  exact List.get_mem _ _ hlt

theorem sample_all_balls_ok {s : List ℤ → ℕ → List ℤ} (hs : SamplerSpec s) {n : ℕ}
    (hn : n ≤ 47) :
    pySample s all_balls n = some (s all_balls n) ∧ (sortAsc (s all_balls n)).length = n ∧
      (sortAsc (s all_balls n)).Nodup ∧ ∀ x ∈ sortAsc (s all_balls n), 1 ≤ x ∧ x ≤ 47 := by
  have hlen : n ≤ all_balls.length := by rw [all_balls_length]; exact hn
  obtain ⟨h1, h2, h3⟩ := hs all_balls n hlen
  refine ⟨by simp [pySample, hlen], ?_, ?_, ?_⟩
  · rw [sortAsc_length, h1]
  · exact sortAsc_nodup (h3 all_balls_nodup)
  · intro x hx
    exact mem_all_balls.mp (h2 x (sortAsc_mem.mp hx))

theorem gprSelected_spec (n : ℕ) (rng : Rng) :
    (gprSelected n rng).length ≤ n ∧ (gprSelected n rng).Nodup ∧
      ∀ x ∈ gprSelected n rng, x ∈ all_balls := by
  refine ⟨takeUniqueUpTo_len_le n _ [] (by simp), takeUniqueUpTo_nodup n _ [] List.nodup_nil,
    fun x hx => ?_⟩
  rcases takeUniqueUpTo_subset n _ [] x hx with h | h
  · exact absurd h (List.not_mem_nil x)
  · exact pyChoices_mem all_balls (by decide) _ _ x h

theorem gofrSelected_spec (n : ℕ) (rng : Rng) :
    (gofrSelected n rng).length ≤ n ∧ (gofrSelected n rng).Nodup ∧
      ∀ x ∈ gofrSelected n rng, x ∈ all_balls := by
  refine ⟨?_, pickUniqueBreak_nodup n _ [] List.nodup_nil, fun x hx => ?_⟩
  · cases n with
    | zero =>
      have : pyChoices all_balls (0 * 3) rng.c2 = [] := by simp [pyChoices]
      rw [gofrSelected, this, pickUniqueBreak]
      simp
    | succ m => exact pickUniqueBreak_len_le (m + 1) _ [] (by simp)
  · rcases pickUniqueBreak_subset n _ [] x hx with h | h
    · exact absurd h (List.not_mem_nil x)
    · exact pyChoices_mem all_balls (by decide) _ _ x h

/-- Core row-1 guarantee: for `num_needed ≤ 47` every return path of
`generate_probabilistic_row` succeeds with exactly `num_needed` distinct balls
from the pool (in particular the incomplete-row branch is never taken). -/
theorem gpr_spec (stats : Stats) (n : ℕ) (rng : Rng) (hn : n ≤ 47)
    (hs : SamplerSpec rng.sampler) :
    ∃ l, generate_probabilistic_row stats n rng = Except.ok l ∧
      l.length = n ∧ l.Nodup ∧ ∀ x ∈ l, 1 ≤ x ∧ x ≤ 47 := by
  have hbody : generate_probabilistic_row stats n rng =
      if stats.numerical.isEmpty then
        match pySample rng.sampler all_balls n with
        | some s => Except.ok (sortAsc s)
        | none => Except.error ()
      else if (gprWeights stats).sum ≤ 0 then
        match pySample rng.sampler all_balls n with
        | some s => Except.ok (sortAsc s)
        | none => Except.error ()
      else if (gprSelected n rng).length < n then
        match pySample rng.sampler (all_balls.filter (fun b => b ∉ gprSelected n rng))
            (n - (gprSelected n rng).length) with
        | some fill => Except.ok (sortAsc (insertAllNew (gprSelected n rng) fill))
        | none => Except.ok (sortAsc (gprSelected n rng))
      else Except.ok (sortAsc (gprSelected n rng)) := rfl
  rw [hbody]
  obtain ⟨hsmp, hl1, hl2, hl3⟩ := sample_all_balls_ok hs hn
  by_cases hne : stats.numerical.isEmpty
  · rw [if_pos hne, hsmp]
    exact ⟨_, rfl, hl1, hl2, hl3⟩
  · rw [if_neg hne]
    by_cases hw : (gprWeights stats).sum ≤ 0
    · rw [if_pos hw, hsmp]
      exact ⟨_, rfl, hl1, hl2, hl3⟩
    · rw [if_neg hw]
      obtain ⟨hsl, hsnd, hsmem⟩ := gprSelected_spec n rng
      by_cases hshort : (gprSelected n rng).length < n
      · rw [if_pos hshort]
        have hrem : n - (gprSelected n rng).length ≤
            (all_balls.filter (fun b => b ∉ gprSelected n rng)).length := by
          have := @length_filter_notmem all_balls (gprSelected n rng) all_balls_nodup
          rw [all_balls_length] at this
          simp only [decide_not] at this ⊢
          omega
        obtain ⟨hf1, hf2, hf3⟩ := hs _ _ hrem
        have hsmp2 : pySample rng.sampler (all_balls.filter (fun b => b ∉ gprSelected n rng))
            (n - (gprSelected n rng).length) =
            some (rng.sampler (all_balls.filter (fun b => b ∉ gprSelected n rng))
              (n - (gprSelected n rng).length)) := by
          unfold pySample
          rw [if_pos hrem]
        rw [hsmp2]
        set fill := rng.sampler (all_balls.filter (fun b => b ∉ gprSelected n rng))
          (n - (gprSelected n rng).length) with hfill
        have hfnd : fill.Nodup := hf3 (all_balls_nodup.filter _)
        have hfdis : ∀ x ∈ fill, x ∉ gprSelected n rng := by
          intro x hx
          have := hf2 x hx
          simpa using List.of_mem_filter this
        refine ⟨_, rfl, ?_, sortAsc_nodup (insertAllNew_nodup fill _ hsnd), ?_⟩
        · rw [sortAsc_length, insertAllNew_length fill _ hfnd hfdis, hf1]
          omega
        · intro x hx
          rcases insertAllNew_subset fill _ x (sortAsc_mem.mp hx) with h | h
          · exact mem_all_balls.mp (hsmem x h)
          · exact mem_all_balls.mp (List.mem_of_mem_filter (hf2 x h))
      · rw [if_neg hshort]
        refine ⟨_, rfl, ?_, sortAsc_nodup hsnd, ?_⟩
        · rw [sortAsc_length]; omega
        · intro x hx
          exact mem_all_balls.mp (hsmem x (sortAsc_mem.mp hx))

/-- Core row-2 guarantee: for `num_needed ≤ 47` every return path of
`generate_overdue_frequency_row` succeeds with exactly `num_needed` distinct
balls from the pool (the deterministic most-overdue fill walks the whole pool,
so it always completes the row). -/
theorem gofr_spec (stats : Stats) (n : ℕ) (rng : Rng) (hn : n ≤ 47)
    (hs : SamplerSpec rng.sampler) :
    ∃ l, generate_overdue_frequency_row stats n rng = Except.ok l ∧
      l.length = n ∧ l.Nodup ∧ ∀ x ∈ l, 1 ≤ x ∧ x ≤ 47 := by
  have hbody : generate_overdue_frequency_row stats n rng =
      if (blendOverdueMap stats.cold).isEmpty && (intFreqMap stats.numerical).isEmpty then
        match pySample rng.sampler all_balls n with
        | some s => Except.ok (sortAsc s)
        | none => Except.error ()
      else if (gofrWeights stats).sum ≤ 0 then
        match pySample rng.sampler all_balls n with
        | some s => Except.ok (sortAsc s)
        | none => Except.error ()
      else if (gofrSelected n rng).length < n then
        Except.ok (sortAsc (fillMostOverdue n (gofrByOverdue stats) (gofrSelected n rng)))
      else Except.ok (sortAsc (gofrSelected n rng)) := rfl
  rw [hbody]
  obtain ⟨hsmp, hl1, hl2, hl3⟩ := sample_all_balls_ok hs hn
  by_cases hne : (blendOverdueMap stats.cold).isEmpty && (intFreqMap stats.numerical).isEmpty
  · rw [if_pos hne, hsmp]
    exact ⟨_, rfl, hl1, hl2, hl3⟩
  · rw [if_neg hne]
    by_cases hw : (gofrWeights stats).sum ≤ 0
    · rw [if_pos hw, hsmp]
      exact ⟨_, rfl, hl1, hl2, hl3⟩
    · rw [if_neg hw]
      obtain ⟨hsl, hsnd, hsmem⟩ := gofrSelected_spec n rng
      have hperm := pySortKey_perm (fun x => (dictGetD (blendOverdueMap stats.cold) x 0, 0))
        true all_balls
      by_cases hshort : (gofrSelected n rng).length < n
      · rw [if_pos hshort]
        have hbnd : (gofrByOverdue stats).Nodup := hperm.nodup_iff.mpr all_balls_nodup
        have hcount : n ≤ (gofrSelected n rng).length +
            ((gofrByOverdue stats).filter (fun b => b ∉ gofrSelected n rng)).length := by
          have hpf := (hperm.filter (fun b => (b ∉ gofrSelected n rng : Bool))).length_eq
          have := @length_filter_notmem all_balls (gofrSelected n rng) all_balls_nodup
          rw [all_balls_length] at this
          rw [gofrByOverdue]
          simp only [decide_not] at this hpf ⊢
          omega
        obtain ⟨hm1, hm2, hm3⟩ := fillMostOverdue_spec n (gofrByOverdue stats)
          (gofrSelected n rng) hsnd hshort hbnd hcount
        refine ⟨_, rfl, ?_, sortAsc_nodup hm2, ?_⟩
        · rw [sortAsc_length, hm1]
        · intro x hx
          rcases hm3 x (sortAsc_mem.mp hx) with h | h
          · exact mem_all_balls.mp (hsmem x h)
          · exact mem_all_balls.mp (hperm.mem_iff.mp h)
      · rw [if_neg hshort]
        refine ⟨_, rfl, ?_, sortAsc_nodup hsnd, ?_⟩
        · rw [sortAsc_length]; omega
        · intro x hx
          exact mem_all_balls.mp (hsmem x (sortAsc_mem.mp hx))

/-! ## Claim C4 -/

/-- C4: for every statistics input and every randomness oracle whose sampler
meets the `random.sample` contract, both weighted row generators return
exactly `NUMBERS_PER_ROW = 7` distinct integers in `[1, 47]` — on every path,
including the documented fallbacks (with 7 of 47 balls requested no pool is
ever exhausted, so not even the fallback messages weaken the guarantee). -/
theorem c4_theorem (stats : Stats) (rng : Rng) (hs : SamplerSpec rng.sampler) :
    (∃ l, generate_probabilistic_row stats NUMBERS_PER_ROW rng = Except.ok l ∧
        l.length = NUMBERS_PER_ROW ∧ l.Nodup ∧ ∀ x ∈ l, 1 ≤ x ∧ x ≤ 47) ∧
      (∃ l, generate_overdue_frequency_row stats NUMBERS_PER_ROW rng = Except.ok l ∧
        l.length = NUMBERS_PER_ROW ∧ l.Nodup ∧ ∀ x ∈ l, 1 ≤ x ∧ x ≤ 47) :=
  ⟨gpr_spec stats NUMBERS_PER_ROW rng (by decide) hs,
    gofr_spec stats NUMBERS_PER_ROW rng (by decide) hs⟩

/-- C4 witness: the theorem applied to the empty statistics and the concrete
oracle `rng0`. -/
theorem c4_witness : SamplerSpec rng0.sampler ∧
    ((∃ l, generate_probabilistic_row {} NUMBERS_PER_ROW rng0 = Except.ok l ∧
        l.length = NUMBERS_PER_ROW ∧ l.Nodup ∧ ∀ x ∈ l, 1 ≤ x ∧ x ≤ 47) ∧
      (∃ l, generate_overdue_frequency_row {} NUMBERS_PER_ROW rng0 = Except.ok l ∧
        l.length = NUMBERS_PER_ROW ∧ l.Nodup ∧ ∀ x ∈ l, 1 ≤ x ∧ x ≤ 47)) :=
  ⟨takeSampler_spec, c4_theorem {} rng0 takeSampler_spec⟩

/-! ## Claim C10 -/

/-- C10: whenever `num_needed ≤ 47` (the pool size), both generators return
exactly `num_needed` distinct balls on every path — so the incomplete-row
branch of `generate_probabilistic_row` (reached only when the fill sample
fails) is unreachable, the deterministic fill of
`generate_overdue_frequency_row` always completes the row, and the
orchestrator's row-2 step always accepts its row (the skip branch is never
taken: `row2Step` always appends). -/
theorem c10_theorem (stats : Stats) (n : ℕ) (rng : Rng) (hn : n ≤ 47)
    (hs : SamplerSpec rng.sampler) :
    (∃ l, generate_probabilistic_row stats n rng = Except.ok l ∧
        l.length = n ∧ l.Nodup) ∧
      (∃ l, generate_overdue_frequency_row stats n rng = Except.ok l ∧
        l.length = n ∧ l.Nodup) ∧
      (∀ st : OrchSt, ∃ l, generate_overdue_frequency_row stats n rng = Except.ok l ∧
        row2Step stats n rng st =
          Except.ok ⟨st.rows ++ [l], st.used ++ l, st.gs ++ [true]⟩) := by
  obtain ⟨l1, he1, hl1, hn1, _⟩ := gpr_spec stats n rng hn hs
  obtain ⟨l2, he2, hl2, hn2, _⟩ := gofr_spec stats n rng hn hs
  refine ⟨⟨l1, he1, hl1, hn1⟩, ⟨l2, he2, hl2, hn2⟩, fun st => ⟨l2, he2, ?_⟩⟩
  rw [row2Step, he2]
  simp [hl2]

/-- C10 witness: the theorem applied to the empty statistics, `n = 7` and the
concrete oracle `rng0`. -/
theorem c10_witness : (7 : ℕ) ≤ 47 ∧ SamplerSpec rng0.sampler ∧
    ((∃ l, generate_probabilistic_row {} 7 rng0 = Except.ok l ∧ l.length = 7 ∧ l.Nodup) ∧
      (∃ l, generate_overdue_frequency_row {} 7 rng0 = Except.ok l ∧ l.length = 7 ∧ l.Nodup) ∧
      (∀ st : OrchSt, ∃ l, generate_overdue_frequency_row {} 7 rng0 = Except.ok l ∧
        row2Step {} 7 rng0 st =
          Except.ok ⟨st.rows ++ [l], st.used ++ l, st.gs ++ [true]⟩)) :=
  ⟨by decide, takeSampler_spec, c10_theorem {} 7 rng0 (by decide) takeSampler_spec⟩

theorem parseRow_of_not_accepted {cols : ℕ} {r : HRow} (h : acceptedRow cols r = false) :
    parseRow cols r = Except.ok none := by
  unfold parseRow
  rw [h]
  rfl

theorem parseRow_of_accepted {cols : ℕ} {r : HRow} (h : acceptedRow cols r = true) :
    parseRow cols r ≠ Except.ok none := by
  unfold parseRow
  rw [h]
  intro hc
  simp only [Bool.not_true, Bool.false_eq_true, if_false] at hc
  revert hc
  repeat' split
  all_goals simp [ptdFallback3, ptdFallbackG]
  all_goals repeat' split
  all_goals simp

/-! ## Claim C7 -/

/-- C7 counterexample: a 3-column row whose ball text `"abc"` fails integer
parsing is *not* dropped — `parse_table_data` keeps the record, with the raw
string as the ball (the fallback `ball_int` is the string, which still passes
the `is not None` test). -/
theorem c7_counterexample : parse_table_data [c7row] 3 = Except.ok [c7rec] ∧
    c7rec.ball = some (PyVal.str "abc") := by
  exact ⟨by decide, by decide⟩

/-- C7 amended: when `parse_table_data` returns normally, it emits exactly one
record per row passing the heading/arity acceptance filter: a non-ball field
failing numeric coercion keeps the record with the original text, and a ball
number failing to parse *also* keeps the record (with the ball as raw text) —
no row is ever dropped for a parse failure. -/
theorem c7_theorem (rows : List HRow) (cols : ℕ) (recs : List Rec)
    (h : parse_table_data rows cols = Except.ok recs) :
    recs.length = rows.countP (acceptedRow cols) := by
  induction rows generalizing recs with
  | nil =>
    rw [parse_table_data] at h
    cases h
    rfl
  | cons r rest ih =>
    rw [parse_table_data] at h
    cases hp : parseRow cols r with
    | error e => rw [hp] at h; cases h
    | ok o =>
      cases o with
      | none =>
        rw [hp] at h
        have hacc : acceptedRow cols r = false := by
          by_contra hcon
          exact parseRow_of_accepted (by simpa using hcon) hp
        rw [List.countP_cons, hacc]
        simpa using ih recs h
      | some item =>
        rw [hp] at h
        have hacc : acceptedRow cols r = true := by
          by_contra hcon
          rw [parseRow_of_not_accepted (by simpa using hcon)] at hp
          cases hp
        cases hrest : parse_table_data rest cols with
        | error e => rw [hrest] at h; cases h
        | ok l =>
          rw [hrest] at h
          cases h
          rw [List.countP_cons, hacc]
          simp [ih l hrest]

/-- C7 witness: the amended theorem applied to the concrete single-row table
`[c7row]`, whose parse result is computed explicitly. -/
theorem c7_witness : parse_table_data [c7row] 3 = Except.ok [c7rec] ∧
    [c7rec].length = [c7row].countP (acceptedRow 3) :=
  ⟨by decide, c7_theorem [c7row] 3 [c7rec] (by decide)⟩

/-! ## Claim C8 -/

/-- C8 counterexample: a numeric-order cell with ball text `"99"` produces a
record with ball 99, outside `[1, 47]` — the extraction performs no range
check: the value is neither dropped nor clamped. -/
theorem c8_counterexample : parse_numerical_order [c8cell] =
    [{ ball := some (PyVal.int 99), drawn := some (PyVal.int 5) }] ∧
    ¬ ((99 : ℤ) ≤ 47) := by
  exact ⟨by decide, by decide⟩

/-- C8 amended: the extraction functions apply no range filter at all: every
record emitted by `parse_numerical_order` carries exactly the integer that its
cell's ball text parses to (whatever its magnitude — no clamping), and every
cell whose ball text parses contributes a record (no dropping); only cells
whose ball text fails to parse are skipped. -/
theorem c8_theorem (cells : List NCell) :
    (∀ r ∈ parse_numerical_order cells, ∃ c ∈ cells, ∃ bt b, c.ballText = some bt ∧
        pyInt bt = some b ∧ r.ball = some (PyVal.int b)) ∧
    (∀ c ∈ cells, ∀ bt b, c.ballText = some bt → pyInt bt = some b →
        ∃ r ∈ parse_numerical_order cells, r.ball = some (PyVal.int b)) := by
  constructor
  · intro r hr
    obtain ⟨c, hc, hf⟩ := List.mem_filterMap.mp hr
    refine ⟨c, hc, ?_⟩
    cases hbt : c.ballText with
    | none => simp [hbt] at hf
    | some bt =>
      cases hb : pyInt bt with
      | none => simp [hbt, hb] at hf
      | some b =>
        refine ⟨bt, b, rfl, hb, ?_⟩
        simp only [hbt, hb] at hf
        cases hd : pyInt (stripCommas ((c.drawnText).getD "0")) with
        | none => rw [hd] at hf; cases hf; rfl
        | some d => rw [hd] at hf; cases hf; rfl
  · intro c hc bt b hbt hb
    cases hd : pyInt (stripCommas ((c.drawnText).getD "0")) with
    | none =>
      refine ⟨{ ball := some (PyVal.int b), drawn := some (PyVal.int 0) },
        List.mem_filterMap.mpr ⟨c, hc, ?_⟩, rfl⟩
      simp [hbt, hb, hd]
    | some d =>
      refine ⟨{ ball := some (PyVal.int b), drawn := some (PyVal.int d) },
        List.mem_filterMap.mpr ⟨c, hc, ?_⟩, rfl⟩
      simp [hbt, hb, hd]

/-- C8 witness: the amended theorem applied to the concrete cell list
`[c8cell]`: the out-of-range ball 99 flows through unchanged. -/
theorem c8_witness : ∃ r ∈ parse_numerical_order [c8cell], r.ball = some (PyVal.int 99) :=
  (c8_theorem [c8cell]).2 c8cell (by decide) "99" 99 (by decide) (by decide)

theorem sorted_of_ite_ok {C : Prop} [Decidable C] {X Y l : List ℤ}
    (h : (if C then Except.ok (sortAsc X) else Except.ok (sortAsc Y)) =
      (Except.ok l : Except Unit (List ℤ))) : l.Sorted (· ≤ ·) := by
  by_cases hc : C
  · rw [if_pos hc] at h; cases h; exact sortAsc_sorted _
  · rw [if_neg hc] at h; cases h; exact sortAsc_sorted _

theorem gpr_sorted (stats : Stats) (n : ℕ) (rng : Rng) :
    ∀ l, generate_probabilistic_row stats n rng = Except.ok l → l.Sorted (· ≤ ·) := by
  intro l h
  have hbody : generate_probabilistic_row stats n rng =
      if stats.numerical.isEmpty then
        match pySample rng.sampler all_balls n with
        | some s => Except.ok (sortAsc s)
        | none => Except.error ()
      else if (gprWeights stats).sum ≤ 0 then
        match pySample rng.sampler all_balls n with
        | some s => Except.ok (sortAsc s)
        | none => Except.error ()
      else if (gprSelected n rng).length < n then
        match pySample rng.sampler (all_balls.filter (fun b => b ∉ gprSelected n rng))
            (n - (gprSelected n rng).length) with
        | some fill => Except.ok (sortAsc (insertAllNew (gprSelected n rng) fill))
        | none => Except.ok (sortAsc (gprSelected n rng))
      else Except.ok (sortAsc (gprSelected n rng)) := rfl
  rw [hbody] at h
  by_cases h1 : stats.numerical.isEmpty
  · rw [if_pos h1] at h
    cases hp : pySample rng.sampler all_balls n with
    | none => rw [hp] at h; cases h
    | some s => rw [hp] at h; cases h; exact sortAsc_sorted _
  · rw [if_neg h1] at h
    by_cases h2 : (gprWeights stats).sum ≤ 0
    · rw [if_pos h2] at h
      cases hp : pySample rng.sampler all_balls n with
      | none => rw [hp] at h; cases h
      | some s => rw [hp] at h; cases h; exact sortAsc_sorted _
    · rw [if_neg h2] at h
      by_cases h3 : (gprSelected n rng).length < n
      · rw [if_pos h3] at h
        cases hp : pySample rng.sampler (all_balls.filter (fun b => b ∉ gprSelected n rng))
            (n - (gprSelected n rng).length) with
        | none => rw [hp] at h; cases h; exact sortAsc_sorted _
        | some fill => rw [hp] at h; cases h; exact sortAsc_sorted _
      · rw [if_neg h3] at h
        cases h
        exact sortAsc_sorted _

set_option maxHeartbeats 1000000 in
theorem gofr_sorted (stats : Stats) (n : ℕ) (rng : Rng) :
    ∀ l, generate_overdue_frequency_row stats n rng = Except.ok l → l.Sorted (· ≤ ·) := by
  intro l h
  have hbody : generate_overdue_frequency_row stats n rng =
      if (blendOverdueMap stats.cold).isEmpty && (intFreqMap stats.numerical).isEmpty then
        match pySample rng.sampler all_balls n with
        | some s => Except.ok (sortAsc s)
        | none => Except.error ()
      else if (gofrWeights stats).sum ≤ 0 then
        match pySample rng.sampler all_balls n with
        | some s => Except.ok (sortAsc s)
        | none => Except.error ()
      else if (gofrSelected n rng).length < n then
        Except.ok (sortAsc (fillMostOverdue n (gofrByOverdue stats) (gofrSelected n rng)))
      else Except.ok (sortAsc (gofrSelected n rng)) := rfl
  revert h
  rw [hbody]
  by_cases h1 : (blendOverdueMap stats.cold).isEmpty && (intFreqMap stats.numerical).isEmpty
  · rw [if_pos h1]
    cases hp : pySample rng.sampler all_balls n with
    | none => intro h; cases h
    | some s => intro h; cases h; exact sortAsc_sorted _
  · rw [if_neg h1]
    by_cases h2 : (gofrWeights stats).sum ≤ 0
    · rw [if_pos h2]
      cases hp : pySample rng.sampler all_balls n with
      | none => intro h; cases h
      | some s => intro h; cases h; exact sortAsc_sorted _
    · rw [if_neg h2]
      exact fun h => sorted_of_ite_ok h

theorem gnbf_nodup (numerical : List Rec) (count : ℕ) (highest : Bool)
    (hnd : ((validFreq numerical).map ballOf).Nodup) :
    (get_numbers_by_frequency numerical count highest).Nodup := by
  have hbody : get_numbers_by_frequency numerical count highest =
      if (validFreq numerical).isEmpty then []
      else ((pySortKey (fun r => (drawnOf r, ballOf r)) highest
        (validFreq numerical)).take count).map ballOf := rfl
  rw [hbody]
  by_cases hemp : (validFreq numerical).isEmpty
  · rw [if_pos hemp]; exact List.nodup_nil
  · rw [if_neg hemp]
    have hperm := pySortKey_perm (fun r => (drawnOf r, ballOf r)) highest (validFreq numerical)
    have hmapnd := (hperm.map ballOf).nodup_iff.mpr hnd
    rw [List.map_take]
    exact hmapnd.sublist (List.take_sublist _ _)

theorem row3Loop_spec (ridx : ℕ → ℕ) (n : ℕ) :
    ∀ (fuel i : ℕ) (cands : List ℤ) (ws : List PyVal) (sel : List ℤ),
      cands.length ≤ fuel → cands.Nodup → sel.Nodup → (∀ x ∈ cands, x ∉ sel) →
      ∀ res, row3Loop ridx n i cands ws sel = some res →
        res.Nodup ∧ (∀ y ∈ res, y ∈ sel ∨ y ∈ cands) := by
  intro fuel
  induction fuel with
  | zero =>
    intro i cands ws sel hf _ hselnd _ res hres
    have hcands : cands = [] := List.length_eq_zero.mp (by omega)
    subst hcands
    rw [row3Loop] at hres
    rw [dif_pos (Or.inr rfl)] at hres
    cases hres
    exact ⟨hselnd, fun y hy => Or.inl hy⟩
  | succ fuel ih =>
    intro i cands ws sel hf hcnd hselnd hdis res hres
    rw [row3Loop] at hres
    by_cases hstop : n ≤ sel.length ∨ cands = []
    · rw [dif_pos hstop] at hres
      cases hres
      exact ⟨hselnd, fun y hy => Or.inl hy⟩
    · rw [dif_neg hstop] at hres
      by_cases hvalid : ¬((ws.all pvIsInt) = true ∧ 0 < pvSum ws)
      · rw [if_pos hvalid] at hres
        cases hres
      · rw [if_neg hvalid] at hres
        dsimp only at hres
        have hne : cands ≠ [] := fun hc => hstop (Or.inr hc)
        have hlen : 0 < cands.length := List.length_pos.mpr hne
        have hk : ridx i % cands.length < cands.length := Nat.mod_lt _ hlen
        set pick := cands.getD (ridx i % cands.length) 0 with hpick
        have hpickeq : pick = cands.get ⟨_, hk⟩ := by
          rw [hpick]
          simp [List.getD_eq_getElem?_getD, List.getElem?_eq_getElem hk]
        have hpickmem : pick ∈ cands := by rw [hpickeq]; exact List.get_mem _ _ hk
        have hidx : cands.findIdx (fun x => x == pick) < cands.length :=
          List.findIdx_lt_length_of_exists ⟨pick, hpickmem, by simp⟩
        have hfound : cands.get ⟨_, hidx⟩ = pick := by
          have := @List.findIdx_get _ (fun x => x == pick) cands hidx
          simpa using this
        have herase : cands.eraseIdx (cands.findIdx (fun x => x == pick)) =
            cands.erase pick := by
          have := hcnd.erase_get ⟨_, hidx⟩
          rw [hfound] at this
          exact this.symm
        rw [herase] at hres
        have hlt : (cands.erase pick).length ≤ fuel := by
          have := cands.length_erase_of_mem hpickmem
          omega
        have hnd2 : (cands.erase pick).Nodup := hcnd.erase pick
        have hselnd2 : (sel ++ [pick]).Nodup := by
          simp [List.nodup_append, hselnd, hdis pick hpickmem]
        have hdis2 : ∀ x ∈ cands.erase pick, x ∉ sel ++ [pick] := by
          intro x hx
          obtain ⟨hxne, hxmem⟩ := (hcnd.mem_erase_iff).mp hx
          simp only [List.mem_append, List.mem_singleton]
          rintro (hc | rfl)
          · exact hdis x hxmem hc
          · exact hxne rfl
        obtain ⟨h1, h2⟩ := ih (i + 1) (cands.erase pick) _ (sel ++ [pick]) hlt hnd2 hselnd2
          hdis2 res hres
        refine ⟨h1, fun y hy => ?_⟩
        rcases h2 y hy with hm | hm
        · rcases List.mem_append.mp hm with hm2 | hm2
          · exact Or.inl hm2
          · exact Or.inr (by rw [List.mem_singleton.mp hm2]; exact hpickmem)
        · exact Or.inr (List.mem_of_mem_erase hm)

theorem pySample_some {s : List ℤ → ℕ → List ℤ} {pool : List ℤ} {k : ℕ} {res : List ℤ}
    (h : pySample s pool k = some res) : k ≤ pool.length ∧ res = s pool k := by
  unfold pySample at h
  by_cases hk : k ≤ pool.length
  · rw [if_pos hk] at h
    cases h
    exact ⟨hk, rfl⟩
  · rw [if_neg hk] at h
    cases h

theorem row3Cands_nodup (stats : Stats) (used : List ℤ)
    (hnd : ((validFreq stats.numerical).map ballOf).Nodup) :
    (row3Cands stats used).Nodup :=
  (gnbf_nodup stats.numerical 50 true hnd).filter _

theorem row3Selected_nodup (stats : Stats) (n : ℕ) (rng : Rng) (used : List ℤ)
    (fm : List (PyVal × PyVal)) (hnd : ((validFreq stats.numerical).map ballOf).Nodup) :
    (row3Selected stats n rng used fm).Nodup := by
  unfold row3Selected
  dsimp only
  cases hloop : row3Loop rng.c3 n 0 (row3Cands stats used)
      ((row3Cands stats used).map fun num => pvDictGetD fm (PyVal.int num) (PyVal.int 1)) [] with
  | some sel =>
    exact (row3Loop_spec rng.c3 n (row3Cands stats used).length 0 _ _ [] le_rfl
      (row3Cands_nodup stats used hnd) List.nodup_nil (by simp) sel hloop).1
  | none => exact (row3Cands_nodup stats used hnd).sublist (List.take_sublist _ _)

theorem row3Filled_nodup (stats : Stats) (n : ℕ) (rng : Rng) (used : List ℤ)
    (fm : List (PyVal × PyVal)) (hs : SamplerSpec rng.sampler)
    (hnd : ((validFreq stats.numerical).map ballOf).Nodup) :
    (row3Filled stats n rng used fm).Nodup := by
  have hselnd := row3Selected_nodup stats n rng used fm hnd
  unfold row3Filled
  dsimp only
  by_cases hlt : (row3Selected stats n rng used fm).length < n
  · rw [if_pos hlt]
    cases hp : pySample rng.sampler
        (all_balls.filter fun x => x ∉ used ∧ x ∉ row3Selected stats n rng used fm)
        (n - (row3Selected stats n rng used fm).length) with
    | none => exact hselnd
    | some fill =>
      obtain ⟨hk, hfill⟩ := pySample_some hp
      obtain ⟨_, hmem, hfnd⟩ := hs _ _ hk
      rw [← hfill] at hmem hfnd
      refine List.Nodup.append hselnd (hfnd (all_balls_nodup.filter _)) ?_
      intro x hxsel hxfill
      have := hmem x hxfill
      have := List.of_mem_filter this
      simp only [decide_eq_true_eq] at this
      exact this.2 hxsel
  · rw [if_neg hlt]
    exact hselnd

theorem row4Sel_nodup (stats : Stats) (n : ℕ) (rng : Rng) : (row4Sel stats n rng).Nodup := by
  unfold row4Sel
  dsimp only
  repeat' split
  all_goals repeat
    first
      | exact List.nodup_nil
      | apply insertAllNew_nodup

theorem stepProgress_inv {st st2 : OrchSt} (h : StepProgress st st2)
    (hinv : st.rows.length = 1 + st.gs.count true) :
    st2.rows.length = 1 + st2.gs.count true := by
  rcases h with ⟨r, hr, hg⟩ | ⟨hr, hg⟩ <;> rw [hr, hg] <;>
    simp [List.count_append, hinv] <;> omega

theorem stepProgress_gs {st st2 : OrchSt} (h : StepProgress st st2) :
    st2.gs.length = st.gs.length + 1 := by
  rcases h with ⟨r, _, hg⟩ | ⟨_, hg⟩ <;> rw [hg] <;> simp

theorem pyDictPVGo_ok : ∀ rs : List Rec, RecsKeyed rs →
    ∀ acc, ∃ fm, pyDictPVGo acc rs = Except.ok fm := by
  intro rs
  induction rs with
  | nil => intro _ acc; exact ⟨acc, rfl⟩
  | cons r rest ih =>
    intro hwf acc
    obtain ⟨hb, hd⟩ := hwf r (List.mem_cons_self r rest)
    obtain ⟨vb, hvb⟩ := Option.isSome_iff_exists.mp hb
    obtain ⟨vd, hvd⟩ := Option.isSome_iff_exists.mp hd
    rw [pyDictPVGo, hvb, hvd]
    exact ih (fun x hx => hwf x (List.mem_cons_of_mem _ hx)) _

theorem row2Step_progress (stats : Stats) (n : ℕ) (rng : Rng) (hn : n ≤ 47)
    (hs : SamplerSpec rng.sampler) (st : OrchSt) :
    ∃ st2, row2Step stats n rng st = Except.ok st2 ∧ StepProgress st st2 := by
  obtain ⟨l, he, hlen, _, _⟩ := gofr_spec stats n rng hn hs
  rw [row2Step, he]
  dsimp only
  rw [if_pos hlen]
  exact ⟨_, rfl, Or.inl ⟨l, rfl, rfl⟩⟩

theorem row3Step_progress (stats : Stats) (n : ℕ) (rng : Rng)
    (hwf : RecsKeyed stats.numerical) (st : OrchSt) :
    ∃ st2, row3Step stats n rng st = Except.ok st2 ∧ StepProgress st st2 := by
  rw [row3Step]
  by_cases hemp : (row3Cands stats st.used).isEmpty
  · rw [if_pos hemp]
    exact ⟨_, rfl, Or.inr ⟨rfl, rfl⟩⟩
  · rw [if_neg hemp]
    obtain ⟨fm, hfm⟩ := pyDictPVGo_ok stats.numerical hwf []
    rw [hfm]
    dsimp only
    by_cases hlen : (row3Filled stats n rng st.used fm).length = n
    · rw [if_pos hlen]
      exact ⟨_, rfl, Or.inl ⟨_, rfl, rfl⟩⟩
    · rw [if_neg hlen]
      exact ⟨_, rfl, Or.inr ⟨rfl, rfl⟩⟩

theorem row4Step_progress (stats : Stats) (n : ℕ) (rng : Rng) (st : OrchSt) :
    ∃ st2, row4Step stats n rng st = Except.ok st2 ∧ StepProgress st st2 := by
  rw [row4Step]
  by_cases hpool : ((orchMostCommon stats).take 15).length < 3 ∨
      ((orchMostOverdue stats).take 15).length < 3
  · rw [if_pos hpool]
    exact ⟨_, rfl, Or.inr ⟨rfl, rfl⟩⟩
  · rw [if_neg hpool]
    by_cases hlen : (row4Sel stats n rng).length = n
    · rw [if_pos hlen]
      exact ⟨_, rfl, Or.inl ⟨_, rfl, rfl⟩⟩
    · rw [if_neg hlen]
      exact ⟨_, rfl, Or.inr ⟨rfl, rfl⟩⟩

theorem row5Step_progress (stats : Stats) (n : ℕ) (rng : Rng) (st : OrchSt) :
    ∃ st2, row5Step stats n rng st = Except.ok st2 ∧ StepProgress st st2 := by
  rw [row5Step]
  by_cases hpool : 4 ≤ ((orchMostCommon stats).drop 3).length ∧
      3 ≤ ((orchMostOverdue stats).drop 3).length
  · rw [if_pos hpool]
    by_cases hlen : (row5Row stats n rng).length = n
    · rw [if_pos hlen]
      exact ⟨_, rfl, Or.inl ⟨_, rfl, rfl⟩⟩
    · rw [if_neg hlen]
      exact ⟨_, rfl, Or.inr ⟨rfl, rfl⟩⟩
  · rw [if_neg hpool]
    exact ⟨_, rfl, Or.inr ⟨rfl, rfl⟩⟩

theorem row6Step_progress (stats : Stats) (n : ℕ) (rng : Rng) (st : OrchSt) :
    ∃ st2, row6Step stats n rng st = Except.ok st2 ∧ StepProgress st st2 := by
  rw [row6Step]
  by_cases hmid : n ≤ (row6Middle stats).length
  · rw [if_pos hmid]
    have hp : pySample rng.sampler (row6Middle stats) n =
        some (rng.sampler (row6Middle stats) n) := by
      unfold pySample
      rw [if_pos hmid]
    rw [hp]
    exact ⟨_, rfl, Or.inl ⟨_, rfl, rfl⟩⟩
  · rw [if_neg hmid]
    cases hp : pySample rng.sampler all_balls n with
    | some r6 => exact ⟨_, rfl, Or.inl ⟨_, rfl, rfl⟩⟩
    | none => exact ⟨_, rfl, Or.inr ⟨rfl, rfl⟩⟩

theorem goodRows_append {rows : List (List ℤ)} {r : List ℤ}
    (h : ∀ x ∈ rows, x.Sorted (· ≤ ·) ∧ x.Nodup) (h1 : r.Sorted (· ≤ ·)) (h2 : r.Nodup) :
    ∀ x ∈ rows ++ [r], x.Sorted (· ≤ ·) ∧ x.Nodup := by
  intro x hx
  rcases List.mem_append.mp hx with hm | hm
  · exact h x hm
  · rw [List.mem_singleton.mp hm]
    exact ⟨h1, h2⟩

theorem row2Step_good (stats : Stats) (n : ℕ) (rng : Rng) (hn : n ≤ 47)
    (hs : SamplerSpec rng.sampler) (st st2 : OrchSt)
    (hstep : row2Step stats n rng st = Except.ok st2)
    (hgood : ∀ x ∈ st.rows, x.Sorted (· ≤ ·) ∧ x.Nodup) :
    ∀ x ∈ st2.rows, x.Sorted (· ≤ ·) ∧ x.Nodup := by
  obtain ⟨l, he, hlen, hnd2, _⟩ := gofr_spec stats n rng hn hs
  rw [row2Step, he] at hstep
  dsimp only at hstep
  rw [if_pos hlen] at hstep
  cases hstep
  exact goodRows_append hgood (gofr_sorted stats n rng l he) hnd2

theorem row3Step_good (stats : Stats) (n : ℕ) (rng : Rng) (hs : SamplerSpec rng.sampler)
    (hnd : ((validFreq stats.numerical).map ballOf).Nodup) (st st2 : OrchSt)
    (hstep : row3Step stats n rng st = Except.ok st2)
    (hgood : ∀ x ∈ st.rows, x.Sorted (· ≤ ·) ∧ x.Nodup) :
    ∀ x ∈ st2.rows, x.Sorted (· ≤ ·) ∧ x.Nodup := by
  rw [row3Step] at hstep
  by_cases hemp : (row3Cands stats st.used).isEmpty
  · rw [if_pos hemp] at hstep
    cases hstep
    exact hgood
  · rw [if_neg hemp] at hstep
    cases hfm : pyDictPVGo [] stats.numerical with
    | error e => rw [hfm] at hstep; cases hstep
    | ok fm =>
      rw [hfm] at hstep
      dsimp only at hstep
      by_cases hlen : (row3Filled stats n rng st.used fm).length = n
      · rw [if_pos hlen] at hstep
        cases hstep
        exact goodRows_append hgood (sortAsc_sorted _)
          (sortAsc_nodup (row3Filled_nodup stats n rng st.used fm hs hnd))
      · rw [if_neg hlen] at hstep
        cases hstep
        exact hgood

theorem row4Step_good (stats : Stats) (n : ℕ) (rng : Rng) (st st2 : OrchSt)
    (hstep : row4Step stats n rng st = Except.ok st2)
    (hgood : ∀ x ∈ st.rows, x.Sorted (· ≤ ·) ∧ x.Nodup) :
    ∀ x ∈ st2.rows, x.Sorted (· ≤ ·) ∧ x.Nodup := by
  rw [row4Step] at hstep
  by_cases hpool : ((orchMostCommon stats).take 15).length < 3 ∨
      ((orchMostOverdue stats).take 15).length < 3
  · rw [if_pos hpool] at hstep
    cases hstep
    exact hgood
  · rw [if_neg hpool] at hstep
    by_cases hlen : (row4Sel stats n rng).length = n
    · rw [if_pos hlen] at hstep
      cases hstep
      exact goodRows_append hgood (sortAsc_sorted _)
        (sortAsc_nodup (row4Sel_nodup stats n rng))
    · rw [if_neg hlen] at hstep
      cases hstep
      exact hgood

theorem row5Step_good (stats : Stats) (n : ℕ) (rng : Rng) (hsetf : SetFunSpec rng.setf)
    (st st2 : OrchSt) (hstep : row5Step stats n rng st = Except.ok st2)
    (hgood : ∀ x ∈ st.rows, x.Sorted (· ≤ ·) ∧ x.Nodup) :
    ∀ x ∈ st2.rows, x.Sorted (· ≤ ·) ∧ x.Nodup := by
  rw [row5Step] at hstep
  by_cases hpool : 4 ≤ ((orchMostCommon stats).drop 3).length ∧
      3 ≤ ((orchMostOverdue stats).drop 3).length
  · rw [if_pos hpool] at hstep
    by_cases hlen : (row5Row stats n rng).length = n
    · rw [if_pos hlen] at hstep
      cases hstep
      exact goodRows_append hgood (sortAsc_sorted _)
        (sortAsc_nodup (suc_props rng.setf hsetf _ 4 _ 3 n).2.1)
    · rw [if_neg hlen] at hstep
      cases hstep
      exact hgood
  · rw [if_neg hpool] at hstep
    cases hstep
    exact hgood

theorem row6Step_good (stats : Stats) (n : ℕ) (rng : Rng) (hs : SamplerSpec rng.sampler)
    (st st2 : OrchSt) (hstep : row6Step stats n rng st = Except.ok st2)
    (hgood : ∀ x ∈ st.rows, x.Sorted (· ≤ ·) ∧ x.Nodup) :
    ∀ x ∈ st2.rows, x.Sorted (· ≤ ·) ∧ x.Nodup := by
  rw [row6Step] at hstep
  by_cases hmid : n ≤ (row6Middle stats).length
  · rw [if_pos hmid] at hstep
    have hp : pySample rng.sampler (row6Middle stats) n =
        some (rng.sampler (row6Middle stats) n) := by
      unfold pySample
      rw [if_pos hmid]
    rw [hp] at hstep
    cases hstep
    refine goodRows_append hgood (sortAsc_sorted _) (sortAsc_nodup ?_)
    exact (hs _ n hmid).2.2 (all_balls_nodup.filter _)
  · rw [if_neg hmid] at hstep
    cases hp : pySample rng.sampler all_balls n with
    | some r6 =>
      rw [hp] at hstep
      cases hstep
      obtain ⟨hk, hr6⟩ := pySample_some hp
      refine goodRows_append hgood (sortAsc_sorted _) (sortAsc_nodup ?_)
      rw [hr6]
      exact (hs _ n hk).2.2 all_balls_nodup
    | none =>
      rw [hp] at hstep
      cases hstep
      exact hgood

theorem orchRows_ok (stats : Stats) (n : ℕ) (rng : Rng) (row1 : List ℤ) (hn : n ≤ 47)
    (hs : SamplerSpec rng.sampler) (hwf : RecsKeyed stats.numerical) :
    ∃ st : OrchSt, orchRows stats n rng row1 = Except.ok st ∧
      st.rows.length = 1 + st.gs.count true ∧ st.gs.length = 5 := by
  obtain ⟨st2, he2, hp2⟩ := row2Step_progress stats n rng hn hs ⟨[sortAsc row1], row1, []⟩
  obtain ⟨st3, he3, hp3⟩ := row3Step_progress stats n rng hwf st2
  obtain ⟨st4, he4, hp4⟩ := row4Step_progress stats n rng st3
  obtain ⟨st5, he5, hp5⟩ := row5Step_progress stats n rng st4
  obtain ⟨st6, he6, hp6⟩ := row6Step_progress stats n rng st5
  refine ⟨st6, ?_, ?_, ?_⟩
  · rw [orchRows, he2]
    dsimp only
    rw [he3]
    dsimp only
    rw [he4]
    dsimp only
    rw [he5]
    dsimp only
    exact he6
  · have h1 : (⟨[sortAsc row1], row1, []⟩ : OrchSt).rows.length =
        1 + (⟨[sortAsc row1], row1, []⟩ : OrchSt).gs.count true := by simp
    exact stepProgress_inv hp6 (stepProgress_inv hp5 (stepProgress_inv hp4
      (stepProgress_inv hp3 (stepProgress_inv hp2 h1))))
  · have g2 := stepProgress_gs hp2
    have g3 := stepProgress_gs hp3
    have g4 := stepProgress_gs hp4
    have g5 := stepProgress_gs hp5
    have g6 := stepProgress_gs hp6
    simp only [g6, g5, g4, g3, g2]
    rfl

theorem orchRows_good (stats : Stats) (n : ℕ) (rng : Rng) (row1 : List ℤ) (st : OrchSt)
    (hn : n ≤ 47) (hs : SamplerSpec rng.sampler) (hsetf : SetFunSpec rng.setf)
    (hnd : ((validFreq stats.numerical).map ballOf).Nodup) (h1nd : row1.Nodup)
    (horch : orchRows stats n rng row1 = Except.ok st) :
    ∀ r ∈ st.rows, r.Sorted (· ≤ ·) ∧ r.Nodup := by
  rw [orchRows] at horch
  cases he2 : row2Step stats n rng ⟨[sortAsc row1], row1, []⟩ with
  | error e => rw [he2] at horch; cases horch
  | ok st2 =>
    rw [he2] at horch
    dsimp only at horch
    cases he3 : row3Step stats n rng st2 with
    | error e => rw [he3] at horch; cases horch
    | ok st3 =>
      rw [he3] at horch
      dsimp only at horch
      cases he4 : row4Step stats n rng st3 with
      | error e => rw [he4] at horch; cases horch
      | ok st4 =>
        rw [he4] at horch
        dsimp only at horch
        cases he5 : row5Step stats n rng st4 with
        | error e => rw [he5] at horch; cases horch
        | ok st5 =>
          rw [he5] at horch
          dsimp only at horch
          have h1 : ∀ x ∈ (⟨[sortAsc row1], row1, []⟩ : OrchSt).rows,
              x.Sorted (· ≤ ·) ∧ x.Nodup := by
            intro x hx
            rw [List.mem_singleton.mp hx]
            exact ⟨sortAsc_sorted _, sortAsc_nodup h1nd⟩
          exact row6Step_good stats n rng hs st5 st horch
            (row5Step_good stats n rng hsetf st4 st5 he5
              (row4Step_good stats n rng st3 st4 he4
                (row3Step_good stats n rng hs hnd st2 st3 he3
                  (row2Step_good stats n rng hn hs _ st2 he2 h1))))

theorem markDupGo_length : ∀ (rows seen : List (List ℤ)),
    (markDupGo rows seen).length = rows.length := by
  intro rows
  induction rows with
  | nil => intro seen; rfl
  | cons r rest ih =>
    intro seen
    rw [markDupGo]
    simp only [List.length_cons, ih]

theorem mark_duplicate_rows_length (rows : List (List ℤ)) :
    (mark_duplicate_rows rows).length = rows.length :=
  markDupGo_length rows []

/-! ## Claim C5 -/

/-- C5: a wrong-size row-1 result aborts the whole run with no rows, while
every later strategy is best-effort: when row 1 succeeds the run always
completes, all five later strategies are attempted (`gs.length = 5`), and the
final sequence holds exactly one row for row 1 plus one per *accepted* later
strategy — a wrong-size later result merely skips its own row. -/
theorem c5_theorem (stats : Stats) (n : ℕ) (rng : Rng) (hs : SamplerSpec rng.sampler)
    (hwf : RecsKeyed stats.numerical) :
    (∀ l, generate_probabilistic_row stats n rng = Except.ok l → l.length ≠ n →
        generate_output_rows stats n rng = Except.ok []) ∧
    (n ≤ 47 → precheckOk stats n = true →
      ∃ (r1 : List ℤ) (st : OrchSt),
        generate_probabilistic_row stats n rng = Except.ok r1 ∧ r1.length = n ∧
        orchRows stats n rng r1 = Except.ok st ∧
        generate_output_rows stats n rng = Except.ok (mark_duplicate_rows st.rows) ∧
        st.gs.length = 5 ∧
        (mark_duplicate_rows st.rows).length = 1 + st.gs.count true) := by
  constructor
  · intro l he hne
    rw [generate_output_rows]
    cases hpre : precheckOk stats n with
    | false =>
      rw [if_pos (by decide : (!false) = true)]
    | true =>
      rw [if_neg (by decide : ¬ ((!true) = true))]
      rw [he]
      dsimp only
      rw [if_neg hne]
  · intro hn hpre
    obtain ⟨r1, he1, hl1, _, _⟩ := gpr_spec stats n rng hn hs
    obtain ⟨st, horch, hcount, hglen⟩ := orchRows_ok stats n rng r1 hn hs hwf
    refine ⟨r1, st, he1, hl1, horch, ?_, hglen, ?_⟩
    · rw [generate_output_rows, hpre]
      rw [if_neg (by decide : ¬ ((!true) = true))]
      rw [he1]
      dsimp only
      rw [if_pos hl1, horch]
    · rw [mark_duplicate_rows_length]
      exact hcount

theorem perm_of_nodup_toFinset_eq {l1 l2 : List ℤ} (h1 : l1.Nodup) (h2 : l2.Nodup)
    (he : l1.toFinset = l2.toFinset) : List.Perm l1 l2 := by
  apply List.Subperm.antisymm
  · refine List.subperm_of_subset h1 ?_
    intro x hx
    have hm : x ∈ l1.toFinset := List.mem_toFinset.mpr hx
    rw [he] at hm
    exact List.mem_toFinset.mp hm
  · refine List.subperm_of_subset h2 ?_
    intro x hx
    have hm : x ∈ l2.toFinset := List.mem_toFinset.mpr hx
    rw [← he] at hm
    exact List.mem_toFinset.mp hm

theorem getD_mem_of_lt {l : List (List ℤ)} {j : ℕ} (h : j < l.length) : l.getD j [] ∈ l := by
  rw [List.getD_eq_getElem?_getD, List.getElem?_eq_getElem h]
  exact List.getElem_mem h

theorem markDupGo_getD : ∀ (rows seen : List (List ℤ)) (j : ℕ), j < rows.length →
    (markDupGo rows seen).getD j OutRow.dup =
      if rows.getD j [] ∈ seen ∨ ∃ i, i < j ∧ rows.getD i [] = rows.getD j [] then OutRow.dup
      else OutRow.row (rows.getD j []) := by
  intro rows
  induction rows with
  | nil =>
    intro seen j hj
    simp at hj
  | cons r rest ih =>
    intro seen j hj
    rw [markDupGo]
    cases j with
    | zero =>
      simp only [List.getD_cons_zero]
      by_cases hr : r ∈ seen
      · rw [if_pos hr, if_pos (Or.inl hr)]
      · rw [if_neg hr, if_neg ?_]
        rintro (hm | ⟨i, hi, _⟩)
        · exact hr hm
        · omega
    | succ j =>
      simp only [List.getD_cons_succ]
      rw [ih (if r ∈ seen then seen else r :: seen) j (by simpa using hj)]
      refine if_congr ?_ rfl rfl
      constructor
      · rintro (hm | ⟨i, hi, heq⟩)
        · by_cases hr : r ∈ seen
          · rw [if_pos hr] at hm
            exact Or.inl hm
          · rw [if_neg hr] at hm
            rcases List.mem_cons.mp hm with heq | hm2
            · exact Or.inr ⟨0, by omega, by simp [heq.symm]⟩
            · exact Or.inl hm2
        · exact Or.inr ⟨i + 1, by omega, by simpa using heq⟩
      · rintro (hm | ⟨i, hi, heq⟩)
        · left
          by_cases hr : r ∈ seen
          · rw [if_pos hr]
            exact hm
          · rw [if_neg hr]
            exact List.mem_cons_of_mem r hm
        · cases i with
          | zero =>
            left
            simp only [List.getD_cons_zero] at heq
            by_cases hr : r ∈ seen
            · rw [if_pos hr]
              rw [← heq]
              exact hr
            · rw [if_neg hr]
              rw [← heq]
              exact List.mem_cons_self r seen
          | succ i =>
            right
            exact ⟨i, by omega, by simpa using heq⟩

/-! ## Claim C6 -/

/-- C6: on every completed run (row 1 accepted, later rows computed), the
orchestrator's final sequence is the accepted rows with every repetition of an
earlier row's number set (order-independent: all accepted rows are sorted and
duplicate-free, so tuple equality coincides with set equality) replaced, in
place, by the `"duplicate"` sentinel: position `j` holds the row itself when no
earlier position carries the same set, and the sentinel otherwise. -/
theorem c6_theorem (stats : Stats) (n : ℕ) (rng : Rng) (hs : SamplerSpec rng.sampler)
    (hsetf : SetFunSpec rng.setf)
    (hnd : ((validFreq stats.numerical).map ballOf).Nodup) (hn : n ≤ 47)
    (hpre : precheckOk stats n = true) (r1 : List ℤ) (st : OrchSt)
    (he1 : generate_probabilistic_row stats n rng = Except.ok r1) (hl1 : r1.length = n)
    (horch : orchRows stats n rng r1 = Except.ok st) :
    generate_output_rows stats n rng = Except.ok (mark_duplicate_rows st.rows) ∧
    (mark_duplicate_rows st.rows).length = st.rows.length ∧
    ∀ j, j < st.rows.length →
      (mark_duplicate_rows st.rows).getD j OutRow.dup =
        if ∃ i, i < j ∧ (st.rows.getD i []).toFinset = (st.rows.getD j []).toFinset
        then OutRow.dup else OutRow.row (st.rows.getD j []) := by
  have h1nd : r1.Nodup := by
    obtain ⟨l, he1b, _, hlnd, _⟩ := gpr_spec stats n rng hn hs
    rw [he1] at he1b
    cases he1b
    exact hlnd
  have hgood := orchRows_good stats n rng r1 st hn hs hsetf hnd h1nd horch
  refine ⟨?_, mark_duplicate_rows_length st.rows, ?_⟩
  · rw [generate_output_rows, hpre]
    rw [if_neg (by decide : ¬ ((!true) = true))]
    rw [he1]
    dsimp only
    rw [if_pos hl1, horch]
  · intro j hj
    rw [mark_duplicate_rows, markDupGo_getD st.rows [] j hj]
    refine if_congr ?_ rfl rfl
    constructor
    · rintro (hm | ⟨i, hi, heq⟩)
      · exact absurd hm (List.not_mem_nil _)
      · exact ⟨i, hi, by rw [heq]⟩
    · rintro ⟨i, hi, heq⟩
      right
      refine ⟨i, hi, ?_⟩
      have hij : i < st.rows.length := by omega
      obtain ⟨hsi, hni⟩ := hgood _ (getD_mem_of_lt hij)
      obtain ⟨hsj, hnj⟩ := hgood _ (getD_mem_of_lt hj)
      exact List.eq_of_perm_of_sorted (perm_of_nodup_toFinset_eq hni hnj heq) hsi hsj

/-! ## Total-weight positivity

The generators' "total weight is zero" fallbacks test a sum of rationals; each
weight is bounded below by `0.1` (for row 1 by the explicit `max(0.1, ..)`
floor, for row 2 by the `BASE_MIN_WEIGHT` summand once the frequency counts
are non-negative), so with 47 balls the total is always positive. -/

theorem sum_pos_of_min_tenth (l : List ℚ) (hne : l ≠ [])
    (h : ∀ x ∈ l, (1 : ℚ) / 10 ≤ x) : ¬ l.sum ≤ 0 := by
  cases l with
  | nil => exact absurd rfl hne
  | cons x xs =>
    have hx := h x (List.mem_cons_self x xs)
    have hxs : 0 ≤ xs.sum :=
      List.sum_nonneg fun y hy => le_trans (by norm_num) (h y (List.mem_cons_of_mem x hy))
    simp only [List.sum_cons]
    intro hle
    linarith

theorem gprWeights_min (stats : Stats) : ∀ w ∈ gprWeights stats, (1 : ℚ) / 10 ≤ w := by
  intro w hw
  unfold gprWeights at hw
  dsimp only at hw
  rw [List.mem_map] at hw
  obtain ⟨b, _, rfl⟩ := hw
  exact le_max_left _ _

theorem gprWeights_ne_nil (stats : Stats) : gprWeights stats ≠ [] := by
  apply List.length_pos.mp
  unfold gprWeights
  dsimp only
  rw [List.length_map, all_balls_length]
  omega

theorem gprWeights_sum_pos (stats : Stats) : ¬ (gprWeights stats).sum ≤ 0 :=
  sum_pos_of_min_tenth _ (gprWeights_ne_nil stats) (gprWeights_min stats)

theorem extract_days_blend_nonneg (info : Option String) : 0 ≤ extract_days_blend info := by
  unfold extract_days_blend
  split
  · exact le_refl 0
  · split
    · omega
    · exact le_refl 0

theorem dictUpsert_nonneg {d : List (ℤ × ℤ)} {k v : ℤ} (hd : ∀ p ∈ d, 0 ≤ p.2)
    (hv : 0 ≤ v) : ∀ p ∈ dictUpsert d k v, 0 ≤ p.2 := by
  intro p hp
  unfold dictUpsert at hp
  split at hp
  · rw [List.mem_map] at hp
    obtain ⟨q, hq, hqe⟩ := hp
    by_cases hqk : q.1 = k
    · rw [if_pos hqk] at hqe
      rw [← hqe]
      exact hv
    · rw [if_neg hqk] at hqe
      rw [← hqe]
      exact hd q hq
  · rcases List.mem_append.mp hp with hm | hm
    · exact hd p hm
    · rw [List.mem_singleton.mp hm]
      exact hv

theorem blendOverdueMap_nonneg (cold : List Rec) : ∀ p ∈ blendOverdueMap cold, 0 ≤ p.2 := by
  unfold blendOverdueMap
  have hgen : ∀ (rs : List Rec) (acc : List (ℤ × ℤ)), (∀ p ∈ acc, 0 ≤ p.2) →
      ∀ p ∈ rs.foldl
        (fun d r =>
          if isIntV r.ball then dictUpsert d (intV r.ball) (extract_days_blend r.last_drawn_info)
          else d)
        acc, 0 ≤ p.2 := by
    intro rs
    induction rs with
    | nil => intro acc hacc; exact hacc
    | cons r rest ih =>
      intro acc hacc
      rw [List.foldl_cons]
      apply ih
      by_cases hb : isIntV r.ball = true
      · rw [if_pos hb]
        exact dictUpsert_nonneg hacc (extract_days_blend_nonneg _)
      · rw [if_neg hb]
        exact hacc
  exact hgen cold [] (by intro p hp; exact absurd hp (List.not_mem_nil p))

theorem dictGetD_nonneg {d : List (ℤ × ℤ)} (hd : ∀ p ∈ d, 0 ≤ p.2) (k : ℤ) {v0 : ℤ}
    (hv : 0 ≤ v0) : 0 ≤ dictGetD d k v0 := by
  unfold dictGetD
  cases hf : d.find? (fun p => decide (p.1 = k)) with
  | none => exact hv
  | some p => exact hd p (List.mem_of_find?_eq_some hf)

theorem foldl_max_init_le : ∀ (l : List ℤ) (a : ℤ), a ≤ l.foldl max a := by
  intro l
  induction l with
  | nil => intro a; exact le_refl a
  | cons x xs ih =>
    intro a
    rw [List.foldl_cons]
    exact le_trans (le_max_left a x) (ih (max a x))

theorem listMaxD_nonneg {l : List ℤ} (h : ∀ x ∈ l, 0 ≤ x) : 0 ≤ listMaxD l 0 := by
  cases l with
  | nil => exact le_refl 0
  | cons x rest =>
    exact le_trans (h x (List.mem_cons_self x rest)) (foldl_max_init_le rest x)

theorem orOne_pos {m : ℤ} (hm : 0 ≤ m) : (0 : ℤ) < if m = 0 then 1 else m := by
  by_cases h : m = 0
  · rw [if_pos h]; omega
  · rw [if_neg h]; omega

theorem gofr_elt_min {a c : ℚ} {bz dz : ℤ} (ha : 0 ≤ a) (hc : 0 ≤ c) (hb : 0 < bz)
    (hd : 0 < dz) :
    (1 : ℚ) / 10 ≤ 2 * (a / (bz : ℚ)) + 1 / 5 * (c / (dz : ℚ)) + 1 / 10 := by
  have hbq : (0 : ℚ) ≤ (bz : ℚ) := by exact_mod_cast hb.le
  have hdq : (0 : ℚ) ≤ (dz : ℚ) := by exact_mod_cast hd.le
  have h1 : (0 : ℚ) ≤ 2 * (a / (bz : ℚ)) := mul_nonneg (by norm_num) (div_nonneg ha hbq)
  have h2 : (0 : ℚ) ≤ 1 / 5 * (c / (dz : ℚ)) := mul_nonneg (by norm_num) (div_nonneg hc hdq)
  linarith

theorem gofrWeights_min (stats : Stats)
    (hf : ∀ p ∈ intFreqMap stats.numerical, 0 ≤ p.2) :
    ∀ w ∈ gofrWeights stats, (1 : ℚ) / 10 ≤ w := by
  intro w hw
  unfold gofrWeights at hw
  dsimp only at hw
  rw [List.mem_map] at hw
  obtain ⟨b, _, rfl⟩ := hw
  have hod := blendOverdueMap_nonneg stats.cold
  refine gofr_elt_min ?_ ?_ ?_ ?_
  · exact_mod_cast dictGetD_nonneg hod b (le_refl 0)
  · exact_mod_cast dictGetD_nonneg hf b (le_refl 0)
  · apply orOne_pos
    apply listMaxD_nonneg
    intro x hx
    rw [List.mem_map] at hx
    obtain ⟨p, hp, hpe⟩ := hx
    rw [← hpe]
    exact hod p hp
  · apply orOne_pos
    apply listMaxD_nonneg
    intro x hx
    rw [List.mem_map] at hx
    obtain ⟨p, hp, hpe⟩ := hx
    rw [← hpe]
    exact hf p hp

theorem gofrWeights_ne_nil (stats : Stats) : gofrWeights stats ≠ [] := by
  apply List.length_pos.mp
  unfold gofrWeights
  dsimp only
  rw [List.length_map, all_balls_length]
  omega

theorem gofrWeights_sum_pos (stats : Stats)
    (hf : ∀ p ∈ intFreqMap stats.numerical, 0 ≤ p.2) : ¬ (gofrWeights stats).sum ≤ 0 :=
  sum_pos_of_min_tenth _ (gofrWeights_ne_nil stats) (gofrWeights_min stats hf)

/-! ## Evaluating the generators past the weight checks

With the weight sum settled by the lemmas above, both generators reduce to
their rational-free main path, which closed inputs can then evaluate. -/

theorem gpr_main_eq (stats : Stats) (n : ℕ) (rng : Rng)
    (h : stats.numerical.isEmpty = false) :
    generate_probabilistic_row stats n rng =
      (if (gprSelected n rng).length < n then
        match pySample rng.sampler (all_balls.filter (fun b => b ∉ gprSelected n rng))
            (n - (gprSelected n rng).length) with
        | some fill => Except.ok (sortAsc (insertAllNew (gprSelected n rng) fill))
        | none => Except.ok (sortAsc (gprSelected n rng))
      else Except.ok (sortAsc (gprSelected n rng))) := by
  have hbody : generate_probabilistic_row stats n rng =
      if stats.numerical.isEmpty then
        match pySample rng.sampler all_balls n with
        | some s => Except.ok (sortAsc s)
        | none => Except.error ()
      else if (gprWeights stats).sum ≤ 0 then
        match pySample rng.sampler all_balls n with
        | some s => Except.ok (sortAsc s)
        | none => Except.error ()
      else if (gprSelected n rng).length < n then
        match pySample rng.sampler (all_balls.filter (fun b => b ∉ gprSelected n rng))
            (n - (gprSelected n rng).length) with
        | some fill => Except.ok (sortAsc (insertAllNew (gprSelected n rng) fill))
        | none => Except.ok (sortAsc (gprSelected n rng))
      else Except.ok (sortAsc (gprSelected n rng)) := rfl
  rw [hbody, h]
  rw [if_neg (by decide : ¬ (false = true))]
  rw [if_neg (gprWeights_sum_pos stats)]

theorem gofr_main_eq (stats : Stats) (n : ℕ) (rng : Rng)
    (h : ((blendOverdueMap stats.cold).isEmpty && (intFreqMap stats.numerical).isEmpty) = false)
    (hf : ∀ p ∈ intFreqMap stats.numerical, 0 ≤ p.2) :
    generate_overdue_frequency_row stats n rng =
      (if (gofrSelected n rng).length < n then
        Except.ok (sortAsc (fillMostOverdue n (gofrByOverdue stats) (gofrSelected n rng)))
      else Except.ok (sortAsc (gofrSelected n rng))) := by
  have hbody : generate_overdue_frequency_row stats n rng =
      if (blendOverdueMap stats.cold).isEmpty && (intFreqMap stats.numerical).isEmpty then
        match pySample rng.sampler all_balls n with
        | some s => Except.ok (sortAsc s)
        | none => Except.error ()
      else if (gofrWeights stats).sum ≤ 0 then
        match pySample rng.sampler all_balls n with
        | some s => Except.ok (sortAsc s)
        | none => Except.error ()
      else if (gofrSelected n rng).length < n then
        Except.ok (sortAsc (fillMostOverdue n (gofrByOverdue stats) (gofrSelected n rng)))
      else Except.ok (sortAsc (gofrSelected n rng)) := rfl
  rw [hbody, h]
  rw [if_neg (by decide : ¬ (false = true))]
  rw [if_neg (gofrWeights_sum_pos stats hf)]

/-! ## The concrete witness run at `stats7` -/

theorem gpr_stats7_eq : generate_probabilistic_row stats7 7 rng0 = Except.ok row17 := by
  rw [gpr_main_eq stats7 7 rng0 (by decide)]
  decide

theorem gofr_stats7_eq : generate_overdue_frequency_row stats7 7 rng0 = Except.ok row17 := by
  rw [gofr_main_eq stats7 7 rng0 (by decide) (by decide)]
  decide

theorem row2_stats7_eq :
    row2Step stats7 7 rng0 ⟨[sortAsc row17], row17, []⟩ =
      Except.ok ⟨[row17, row17], row17 ++ row17, [true]⟩ := by
  unfold row2Step
  rw [gofr_stats7_eq]
  decide

theorem orch_stats7_eq : orchRows stats7 7 rng0 row17 = Except.ok st7 := by
  unfold orchRows
  rw [row2_stats7_eq]
  decide

/-- Witness for C5 at the concrete snapshot `stats7` with the `takeSampler`
oracle: both hypotheses hold and both halves of the claim apply. -/
theorem c5_witness : SamplerSpec rng0.sampler ∧ RecsKeyed stats7.numerical ∧
    ((∀ l, generate_probabilistic_row stats7 7 rng0 = Except.ok l → l.length ≠ 7 →
        generate_output_rows stats7 7 rng0 = Except.ok []) ∧
      (7 ≤ 47 → precheckOk stats7 7 = true →
        ∃ (r1 : List ℤ) (st : OrchSt),
          generate_probabilistic_row stats7 7 rng0 = Except.ok r1 ∧ r1.length = 7 ∧
          orchRows stats7 7 rng0 r1 = Except.ok st ∧
          generate_output_rows stats7 7 rng0 = Except.ok (mark_duplicate_rows st.rows) ∧
          st.gs.length = 5 ∧
          (mark_duplicate_rows st.rows).length = 1 + st.gs.count true)) :=
  ⟨takeSampler_spec, by unfold RecsKeyed; decide,
    c5_theorem stats7 7 rng0 takeSampler_spec (by unfold RecsKeyed; decide)⟩

/-- Witness for C6: the concrete run at `stats7`, where row 2 repeats row 1's
number set and the final sequence replaces it in place by the sentinel. -/
theorem c6_witness :
    generate_probabilistic_row stats7 7 rng0 = Except.ok row17 ∧
    orchRows stats7 7 rng0 row17 = Except.ok st7 ∧
    (generate_output_rows stats7 7 rng0 = Except.ok (mark_duplicate_rows st7.rows) ∧
      (mark_duplicate_rows st7.rows).length = st7.rows.length ∧
      ∀ j, j < st7.rows.length →
        (mark_duplicate_rows st7.rows).getD j OutRow.dup =
          if ∃ i, i < j ∧ (st7.rows.getD i []).toFinset = (st7.rows.getD j []).toFinset
          then OutRow.dup else OutRow.row (st7.rows.getD j [])) :=
  ⟨gpr_stats7_eq, orch_stats7_eq,
    c6_theorem stats7 7 rng0 takeSampler_spec dedupSetf_spec (by decide) (by decide)
      (by decide) row17 st7 gpr_stats7_eq (by decide) orch_stats7_eq⟩
